import Mathlib

/-!
Verification of the cursor-api wire-protocol core against its specification.

The definitions below are a shallow embedding of the TypeScript sources:

* `packages/cursor-api/src/core/streaming.ts` — `processChunk`,
  `cleanResponseText`, the `CursorStream` pull loop;
* `src/lib/protobuf.ts` — `convertToCursorFormat`, `encodeChatMessage`,
  `createHexMessage`, `decodeResMessage`, `parseHexResponse`;
* `src/resources/chat/completions.ts` — `validateParams` and the
  validation-then-encode-then-post flow of `create`.

Bytes are modelled as `List Nat` (each element the value of one byte,
`< 256` for real buffers), JavaScript strings as Lean `String`, and
fallible operations as `Option`/`Except`.  gzip decompression is an
external collaborator (zlib) and is passed in as an oracle
`List Nat → Option String` (`none` models a decompression failure).
-/

/-! ## JavaScript string helpers

`isJsWhitespace` models the character class matched by JavaScript's
`String.prototype.trim` and `\s` (ASCII whitespace, NBSP, BOM, and the
Unicode space separators). -/

def isJsWhitespace (c : Char) : Bool :=
  c.toNat = 32 || c.toNat = 9 || c.toNat = 10 || c.toNat = 11 || c.toNat = 12 ||
  c.toNat = 13 || c.toNat = 0xA0 || c.toNat = 0xFEFF || c.toNat = 0x1680 ||
  (0x2000 ≤ c.toNat && c.toNat ≤ 0x200A) || c.toNat = 0x2028 || c.toNat = 0x2029 ||
  c.toNat = 0x202F || c.toNat = 0x205F || c.toNat = 0x3000

/-- Remove trailing JavaScript whitespace (the right half of `trim()`). -/
def dropTrailWS (l : List Char) : List Char :=
  (l.reverse.dropWhile isJsWhitespace).reverse

/-- Model of JavaScript `String.prototype.trim` on a character list. -/
def jsTrimL (l : List Char) : List Char :=
  dropTrailWS (l.dropWhile isJsWhitespace)

/-- Model of JavaScript `String.prototype.trim`. -/
def jsTrim (s : String) : String :=
  ⟨jsTrimL s.data⟩

/-- ASCII letter test, the `[a-zA-Z]` character class. -/
def isAsciiLetter (c : Char) : Bool :=
  (97 ≤ c.toNat && c.toNat ≤ 122) || (65 ≤ c.toNat && c.toNat ≤ 90)

/-- Everything strictly after the first occurrence of `pat` in the list, or
`none` when `pat` (nonempty in all uses) does not occur.  One search step of
the regex engine. -/
def dropAfterOcc? (pat : List Char) : List Char → Option (List Char)
  | [] => none
  | a :: l =>
      if pat.isPrefixOf (a :: l) then some ((a :: l).drop pat.length)
      else dropAfterOcc? pat l

theorem dropAfterOcc?_length {pat : List Char} (p0 : Char) (prest : List Char)
    (hp : pat = p0 :: prest) :
    ∀ l r, dropAfterOcc? pat l = some r → r.length < l.length := by
  intro l
  induction l with
  | nil => intro r h; simp [dropAfterOcc?] at h
  | cons a l ih =>
      intro r h
      rw [dropAfterOcc?] at h
      by_cases hpre : pat.isPrefixOf (a :: l)
      · rw [if_pos hpre] at h
        have hlen : pat.length ≤ (a :: l).length := by
          have := List.IsPrefix.length_le (List.isPrefixOf_iff_prefix.mp hpre)
          exact this
        cases h
        have : pat.length ≥ 1 := by simp [hp]
        simp only [List.length_drop]
        simp only [List.length_cons] at hlen ⊢
        omega
      · rw [if_neg hpre] at h
        have := ih r h
        simp only [List.length_cons]
        omega

/-- Everything strictly after the last occurrence of `pat`, the list itself
when `pat` does not occur: the model of
`text.replace(/^.*<\|END_USER\|>/s, '')` for `pat` the marker.  The pattern
is passed with an exposed head so that it is nonempty by construction. -/
def afterLastMarker (p0 : Char) (prest : List Char) (l : List Char) : List Char :=
  match h : dropAfterOcc? (p0 :: prest) l with
  | none => l
  | some r => afterLastMarker p0 prest r
termination_by l.length
decreasing_by exact dropAfterOcc?_length p0 prest rfl l r h

/-- Model of `text.replace(/^\n[a-zA-Z]?/, '')`: strip one leading newline
and, when one immediately follows, a single ASCII letter. -/
def stripLeadNL : List Char → List Char
  | [] => []
  | a :: l =>
      if a = '\n' then
        match l with
        | c :: l2 => if isAsciiLetter c then l2 else c :: l2
        | [] => []
      else a :: l

/-- Model of `text.replace(/\s*\{\}\s*$/, '')`: when the text ends with `{}`
up to trailing whitespace, remove that `{}` together with the whitespace on
both sides of it; otherwise leave the text unchanged. -/
def stripTrailBraces (l : List Char) : List Char :=
  match l.reverse.dropWhile isJsWhitespace with
  | '}' :: '{' :: r2 => (r2.dropWhile isJsWhitespace).reverse
  | _ => l

/-- The four prompt-scaffolding markers of the backend. -/
def beginSystemMarker : List Char := "<|BEGIN_SYSTEM|>".data

def endSystemMarker : List Char := "<|END_SYSTEM|>".data

def beginUserMarker : List Char := "<|BEGIN_USER|>".data

def endUserMarker : List Char := "<|END_USER|>".data

/-- Model of
`/<\|BEGIN_SYSTEM\|>.*?<\|END_SYSTEM\|>.*?<\|BEGIN_USER\|>.*?<\|END_USER\|>/s.test(text)`:
the regex matches exactly when the four markers occur in order, which the
chained first-occurrence search decides. -/
def scaffoldTest (l : List Char) : Bool :=
  (((dropAfterOcc? beginSystemMarker l).bind
      (dropAfterOcc? endSystemMarker)).bind
      (dropAfterOcc? beginUserMarker) |>.bind
      (dropAfterOcc? endUserMarker)).isSome

/-- Model of `cleanResponseText` from `core/streaming.ts`: drop `{}` / empty
frames, drop leaked prompt scaffolding, cut everything through the last
`<|END_USER|>` marker, strip a leading `\n<letter>` artifact, strip a
trailing `{}` artifact, trim. -/
def cleanResponseText (s : String) : String :=
  if jsTrimL s.data = "{}".data ∨ jsTrimL s.data = [] then ""
  else if scaffoldTest s.data then ""
  else
    ⟨jsTrimL (stripTrailBraces (jsTrimL (stripLeadNL
      (afterLastMarker '<' "|END_USER|>".data s.data))))⟩

/-! ## Variable-length integers (protobufjs writer/reader) -/

/-- LEB128 encoding of a natural number: 7 value bits per byte, high bit set
on every byte except the last.  `protobufjs` `Writer.uint32` emits exactly
this for its (32-bit-truncated) argument. -/
def varintEnc (n : Nat) : List Nat :=
  if h : n < 128 then [n] else (n % 128 + 128) :: varintEnc (n / 128)
termination_by n
decreasing_by exact Nat.div_lt_self (by omega) (by omega)

/-- Model of `protobufjs` `Writer.uint32`: the argument is coerced with
`>>> 0` (reduction modulo `2^32`) before LEB128 encoding. -/
def wUint32 (n : Nat) : List Nat := varintEnc (n % 4294967296)

/-- One step of the `protobufjs` `Reader.uint32` loop: `fuel` bounds the
number of bytes examined (10, after which the reader throws), `shift` is the
current 7-bit position, `acc` the bits accumulated so far.  The reader keeps
only the low 32 bits of the result, modelled by the final `% 2^32`. -/
def varintDecAux : Nat → Nat → Nat → List Nat → Option (Nat × List Nat)
  | 0, _, _, _ => none
  | _ + 1, _, _, [] => none
  | fuel + 1, shift, acc, b :: rest =>
      if b < 128 then some ((acc + b * 2 ^ shift) % 4294967296, rest)
      else varintDecAux fuel (shift + 7) (acc + b % 128 * 2 ^ shift) rest

/-- Model of `protobufjs` `Reader.uint32`: LEB128 decode of at most 10
bytes, truncated to 32 bits, `none` on a truncated buffer or an over-long
varint (both throw in the reader). -/
def readUint32 (l : List Nat) : Option (Nat × List Nat) :=
  varintDecAux 10 0 0 l

theorem varintEnc_ne_nil (n : Nat) : varintEnc n ≠ [] := by
  rw [varintEnc]
  split <;> simp

theorem varintEnc_length_le : ∀ k n, n < 128 ^ (k + 1) → (varintEnc n).length ≤ k + 1 := by
  intro k
  induction k with
  | zero =>
      intro n hn
      rw [varintEnc]
      rw [dif_pos (by simpa using hn)]
      simp
  | succ k ih =>
      intro n hn
      rw [varintEnc]
      split
      · simp
      · have hdiv : n / 128 < 128 ^ (k + 1) := by
          rw [Nat.div_lt_iff_lt_mul (by omega)]
          calc n < 128 ^ (k + 1 + 1) := hn
            _ = 128 ^ (k + 1) * 128 := by ring
        simpa using ih (n / 128) hdiv

theorem varintEnc_bytes_lt : ∀ n b, b ∈ varintEnc n → b < 256 := by
  intro n
  induction n using Nat.strong_induction_on with
  | _ n ih =>
      intro b hb
      rw [varintEnc] at hb
      split at hb
      · simp at hb; omega
      · rcases List.mem_cons.mp hb with h | h
        · omega
        · exact ih (n / 128) (Nat.div_lt_self (by omega) (by omega)) b h

theorem varintDecAux_enc : ∀ n fuel shift acc rest,
    (varintEnc n).length ≤ fuel →
    varintDecAux fuel shift acc (varintEnc n ++ rest) =
      some ((acc + n * 2 ^ shift) % 4294967296, rest) := by
  intro n
  induction n using Nat.strong_induction_on with
  | _ n ih =>
      intro fuel shift acc rest hfuel
      rw [varintEnc] at hfuel ⊢
      by_cases hn : n < 128
      · rw [dif_pos hn] at hfuel ⊢
        simp only [List.length_cons, List.length_nil] at hfuel
        obtain ⟨f, rfl⟩ : ∃ f, fuel = f + 1 := ⟨fuel - 1, by omega⟩
        simp [varintDecAux, hn]
      · rw [dif_neg hn] at hfuel ⊢
        simp only [List.length_cons] at hfuel
        obtain ⟨f, rfl⟩ : ∃ f, fuel = f + 1 := ⟨fuel - 1, by omega⟩
        rw [List.cons_append, varintDecAux]
        rw [if_neg (by omega)]
        have hmod : (n % 128 + 128) % 128 = n % 128 := by omega
        rw [hmod]
        rw [ih (n / 128) (Nat.div_lt_self (by omega) (by omega)) f (shift + 7)
          (acc + n % 128 * 2 ^ shift) rest (by omega)]
        have hpow : (2 : Nat) ^ (shift + 7) = 2 ^ shift * 128 := by
          rw [pow_add]; norm_num
        have heq : acc + n % 128 * 2 ^ shift + n / 128 * 2 ^ (shift + 7) =
            acc + n * 2 ^ shift := by
          rw [hpow]
          have hn' : n % 128 + 128 * (n / 128) = n := Nat.mod_add_div n 128
          calc acc + n % 128 * 2 ^ shift + n / 128 * (2 ^ shift * 128)
              = acc + (n % 128 + 128 * (n / 128)) * 2 ^ shift := by ring
            _ = acc + n * 2 ^ shift := by rw [hn']
        rw [heq]

theorem readUint32_wUint32 (n : Nat) (hn : n < 4294967296) (rest : List Nat) :
    readUint32 (wUint32 n ++ rest) = some (n, rest) := by
  have h1 : n % 4294967296 = n := Nat.mod_eq_of_lt hn
  have hlen : (varintEnc n).length ≤ 10 := by
    have : n < 128 ^ 10 := by
      calc n < 4294967296 := hn
        _ < 128 ^ 10 := by norm_num
    have := varintEnc_length_le 9 n this
    omega
  unfold readUint32 wUint32
  rw [h1, varintDecAux_enc n 10 0 0 rest hlen]
  simp [h1]

/-! ## Big-endian byte strings and hex rendering -/

/-- Big-endian value of a byte list (the value `parseInt(hexSlice, 16)`
computes for the corresponding hex rendering). -/
def beVal (l : List Nat) : Nat := l.foldl (fun a b => 256 * a + b) 0

/-- The 5-byte big-endian rendering of `n < 2^40`, used to build concrete
length-prefixed inputs in theorems. -/
def be5 (n : Nat) : List Nat :=
  [n / 4294967296 % 256, n / 16777216 % 256, n / 65536 % 256, n / 256 % 256, n % 256]

theorem beVal_be5 (n : Nat) (hn : n < 1099511627776) : beVal (be5 n) = n := by
  simp only [be5, beVal, List.foldl]
  omega

theorem be5_length (n : Nat) : (be5 n).length = 5 := rfl

/-- Lowercase hex digit for `d < 16`, as produced by JavaScript
`Number.prototype.toString(16)` and `Buffer.prototype.toString('hex')`. -/
def hexDigitChar (d : Nat) : Char :=
  if d < 10 then Char.ofNat (48 + d) else Char.ofNat (87 + d)

/-- Hex digits of a positive number, most significant first (empty for 0). -/
def natHexChars (n : Nat) : List Char :=
  if n = 0 then [] else natHexChars (n / 16) ++ [hexDigitChar (n % 16)]
termination_by n
decreasing_by exact Nat.div_lt_self (by omega) (by omega)

/-- Model of JavaScript `n.toString(16)` for a natural number. -/
def natToHex (n : Nat) : List Char :=
  if n = 0 then ['0'] else natHexChars n

/-- Model of `String.prototype.padStart(k, '0')`. -/
def padZeros (k : Nat) (l : List Char) : List Char :=
  List.replicate (k - l.length) '0' ++ l

/-- Model of `Buffer.prototype.toString('hex')`: two lowercase hex digits
per byte. -/
def bytesToHex (l : List Nat) : List Char :=
  l.flatMap fun b => [hexDigitChar (b / 16 % 16), hexDigitChar (b % 16)]

/-- Value of one hex digit character, upper or lower case (as accepted by
`Buffer.from(hex, 'hex')` and `parseInt(s, 16)`). -/
def hexDigitVal? (c : Char) : Option Nat :=
  if 48 ≤ c.toNat ∧ c.toNat ≤ 57 then some (c.toNat - 48)
  else if 97 ≤ c.toNat ∧ c.toNat ≤ 102 then some (c.toNat - 87)
  else if 65 ≤ c.toNat ∧ c.toNat ≤ 70 then some (c.toNat - 55)
  else none

/-- Model of `Buffer.from(hexString, 'hex')`: consume hex-digit pairs into
bytes, stopping at the first invalid pair or lone trailing digit. -/
def hexPairsToBytes : List Char → List Nat
  | c1 :: c2 :: rest =>
      match hexDigitVal? c1, hexDigitVal? c2 with
      | some h, some lo => (16 * h + lo) :: hexPairsToBytes rest
      | _, _ => []
  | _ => []

/-! ## UTF-8 encoding and decoding

`utf8EncodeChar` is the byte sequence the JavaScript runtime (and
`protobufjs` `utf8.write`) produces for one code point; `utf8DecodeChars`
models `Buffer.prototype.toString('utf-8')`: a WHATWG-style decoder that
replaces each maximal invalid subpart with U+FFFD and never throws. -/

def utf8EncodeChar (c : Char) : List Nat :=
  let v := c.toNat
  if v < 128 then [v]
  else if v < 2048 then [192 + v / 64, 128 + v % 64]
  else if v < 65536 then [224 + v / 4096, 128 + v / 64 % 64, 128 + v % 64]
  else [240 + v / 262144, 128 + v / 4096 % 64, 128 + v / 64 % 64, 128 + v % 64]

def utf8Encode (s : String) : List Nat := s.data.flatMap utf8EncodeChar

/-- Continuation byte test (`80`–`BF`). -/
def isContByte (b : Nat) : Bool := 128 ≤ b && b < 192

/-- Valid second byte for a three-byte lead (`E0` needs `A0`–`BF`, `ED`
excludes surrogates with `80`–`9F`). -/
def cont3Head (b b1 : Nat) : Bool :=
  if b = 224 then 160 ≤ b1 && b1 < 192
  else if b = 237 then 128 ≤ b1 && b1 < 160
  else isContByte b1

/-- Valid second byte for a four-byte lead (`F0` needs `90`–`BF`, `F4`
caps the range at `8F`). -/
def cont4Head (b b1 : Nat) : Bool :=
  if b = 240 then 144 ≤ b1 && b1 < 192
  else if b = 244 then 128 ≤ b1 && b1 < 144
  else isContByte b1

/-- The Unicode replacement character U+FFFD. -/
def replChar : Char := Char.ofNat 65533

def utf8DecodeChars : List Nat → List Char
  | [] => []
  | b :: rest =>
      if b < 128 then Char.ofNat b :: utf8DecodeChars rest
      else if b < 194 then replChar :: utf8DecodeChars rest
      else if b < 224 then
        match rest with
        | [] => [replChar]
        | b1 :: rest1 =>
            if isContByte b1 then
              Char.ofNat ((b - 192) * 64 + (b1 - 128)) :: utf8DecodeChars rest1
            else replChar :: utf8DecodeChars (b1 :: rest1)
      else if b < 240 then
        match rest with
        | [] => [replChar]
        | b1 :: rest1 =>
            if cont3Head b b1 then
              match rest1 with
              | [] => [replChar]
              | b2 :: rest2 =>
                  if isContByte b2 then
                    Char.ofNat ((b - 224) * 4096 + (b1 - 128) * 64 + (b2 - 128)) ::
                      utf8DecodeChars rest2
                  else replChar :: utf8DecodeChars (b2 :: rest2)
            else replChar :: utf8DecodeChars (b1 :: rest1)
      else if b < 245 then
        match rest with
        | [] => [replChar]
        | b1 :: rest1 =>
            if cont4Head b b1 then
              match rest1 with
              | [] => [replChar]
              | b2 :: rest2 =>
                  if isContByte b2 then
                    match rest2 with
                    | [] => [replChar]
                    | b3 :: rest3 =>
                        if isContByte b3 then
                          Char.ofNat ((b - 240) * 262144 + (b1 - 128) * 4096 +
                              (b2 - 128) * 64 + (b3 - 128)) :: utf8DecodeChars rest3
                        else replChar :: utf8DecodeChars (b3 :: rest3)
                  else replChar :: utf8DecodeChars (b2 :: rest2)
            else replChar :: utf8DecodeChars (b1 :: rest1)
      else replChar :: utf8DecodeChars rest
termination_by l => l.length
decreasing_by all_goals (simp_all [List.length_cons]; try omega)

def utf8Decode (l : List Nat) : String := ⟨utf8DecodeChars l⟩

theorem char_toNat_valid (c : Char) :
    c.toNat < 55296 ∨ (57343 < c.toNat ∧ c.toNat < 1114112) := c.valid

theorem utf8DecodeChars_encodeChar (c : Char) (rest : List Nat) :
    utf8DecodeChars (utf8EncodeChar c ++ rest) = c :: utf8DecodeChars rest := by
  have hv := char_toNat_valid c
  have hofnat : Char.ofNat c.toNat = c := Char.ofNat_toNat c
  by_cases h1 : c.toNat < 128
  · rw [utf8EncodeChar]
    simp only [h1, if_pos]
    rw [List.cons_append, utf8DecodeChars.eq_def]
    dsimp only
    rw [if_pos h1, hofnat]
    simp only [List.nil_append]
  · by_cases h2 : c.toNat < 2048
    · rw [utf8EncodeChar]
      simp only [h1, h2, if_neg, if_pos, ite_false, ite_true]
      rw [List.cons_append, utf8DecodeChars.eq_def]
      dsimp only
      have hb : ¬(192 + c.toNat / 64 < 128) := by omega
      have hb2 : ¬(192 + c.toNat / 64 < 194) := by omega
      have hb3 : 192 + c.toNat / 64 < 224 := by omega
      rw [if_neg hb, if_neg hb2, if_pos hb3]
      simp only [List.cons_append]
      have hc : isContByte (128 + c.toNat % 64) = true := by
        simp [isContByte]; omega
      rw [hc]
      simp only [if_pos]
      have : 192 + c.toNat / 64 - 192 = c.toNat / 64 := by omega
      rw [this]
      have : 128 + c.toNat % 64 - 128 = c.toNat % 64 := by omega
      rw [this]
      have : c.toNat / 64 * 64 + c.toNat % 64 = c.toNat := by omega
      rw [this, hofnat]
      simp only [List.nil_append]
    · by_cases h3 : c.toNat < 65536
      · rw [utf8EncodeChar]
        simp only [h1, h2, h3, if_neg, if_pos, ite_false, ite_true]
        rw [List.cons_append, utf8DecodeChars.eq_def]
        dsimp only
        have hb : ¬(224 + c.toNat / 4096 < 128) := by omega
        have hb2 : ¬(224 + c.toNat / 4096 < 194) := by omega
        have hb3 : ¬(224 + c.toNat / 4096 < 224) := by omega
        have hb4 : 224 + c.toNat / 4096 < 240 := by omega
        rw [if_neg hb, if_neg hb2, if_neg hb3, if_pos hb4]
        simp only [List.cons_append]
        have hc1 : cont3Head (224 + c.toNat / 4096) (128 + c.toNat / 64 % 64) = true := by
          rw [cont3Head]
          split
          · rename_i he
            have : c.toNat / 4096 = 0 := by omega
            simp only [Bool.and_eq_true, decide_eq_true_eq]
            have : 2048 ≤ c.toNat ∧ c.toNat < 4096 := by omega
            constructor <;> [skip; skip] <;> omega
          · split
            · rename_i hne he
              have hd : c.toNat / 4096 = 13 := by omega
              have hsur : c.toNat < 55296 := by
                rcases hv with h | h
                · exact h
                · omega
              simp only [Bool.and_eq_true, decide_eq_true_eq]
              constructor <;> omega
            · simp [isContByte]; omega
        rw [hc1]
        simp only [if_pos]
        have hc2 : isContByte (128 + c.toNat % 64) = true := by
          simp [isContByte]; omega
        rw [hc2]
        simp only [if_pos]
        have e1 : 224 + c.toNat / 4096 - 224 = c.toNat / 4096 := by omega
        have e2 : 128 + c.toNat / 64 % 64 - 128 = c.toNat / 64 % 64 := by omega
        have e3 : 128 + c.toNat % 64 - 128 = c.toNat % 64 := by omega
        rw [e1, e2, e3]
        have : c.toNat / 4096 * 4096 + c.toNat / 64 % 64 * 64 + c.toNat % 64 = c.toNat := by
          omega
        rw [this, hofnat]
        simp only [List.nil_append]
      · rw [utf8EncodeChar]
        simp only [h1, h2, h3, if_neg, ite_false]
        have hup : c.toNat < 1114112 := by rcases hv with h | h <;> omega
        rw [List.cons_append, utf8DecodeChars.eq_def]
        dsimp only
        have hb : ¬(240 + c.toNat / 262144 < 128) := by omega
        have hb2 : ¬(240 + c.toNat / 262144 < 194) := by omega
        have hb3 : ¬(240 + c.toNat / 262144 < 224) := by omega
        have hb4 : ¬(240 + c.toNat / 262144 < 240) := by omega
        have hb5 : 240 + c.toNat / 262144 < 245 := by omega
        rw [if_neg hb, if_neg hb2, if_neg hb3, if_neg hb4, if_pos hb5]
        simp only [List.cons_append]
        have hc1 : cont4Head (240 + c.toNat / 262144) (128 + c.toNat / 4096 % 64) = true := by
          rw [cont4Head]
          split
          · rename_i he
            have : c.toNat / 262144 = 0 := by omega
            simp only [Bool.and_eq_true, decide_eq_true_eq]
            constructor <;> omega
          · split
            · rename_i hne he
              have : c.toNat / 262144 = 4 := by omega
              simp only [Bool.and_eq_true, decide_eq_true_eq]
              constructor <;> omega
            · simp [isContByte]; omega
        rw [hc1]
        simp only [if_pos]
        have hc2 : isContByte (128 + c.toNat / 64 % 64) = true := by
          simp [isContByte]; omega
        have hc3 : isContByte (128 + c.toNat % 64) = true := by
          simp [isContByte]; omega
        rw [hc2]
        simp only [if_pos]
        rw [hc3]
        simp only [if_pos]
        have e1 : 240 + c.toNat / 262144 - 240 = c.toNat / 262144 := by omega
        have e2 : 128 + c.toNat / 4096 % 64 - 128 = c.toNat / 4096 % 64 := by omega
        have e3 : 128 + c.toNat / 64 % 64 - 128 = c.toNat / 64 % 64 := by omega
        have e4 : 128 + c.toNat % 64 - 128 = c.toNat % 64 := by omega
        rw [e1, e2, e3, e4]
        have : c.toNat / 262144 * 262144 + c.toNat / 4096 % 64 * 4096 +
            c.toNat / 64 % 64 * 64 + c.toNat % 64 = c.toNat := by omega
        rw [this, hofnat]
        simp only [List.nil_append]

theorem utf8DecodeChars_encode_data : ∀ l : List Char,
    utf8DecodeChars (l.flatMap utf8EncodeChar) = l := by
  intro l
  induction l with
  | nil => simp [utf8DecodeChars]
  | cons c l ih =>
      rw [List.flatMap_cons, utf8DecodeChars_encodeChar, ih]

theorem utf8Decode_encode (s : String) : utf8Decode (utf8Encode s) = s := by
  unfold utf8Decode utf8Encode
  rw [utf8DecodeChars_encode_data]

/-! ## Request data model and encoder (`src/lib/protobuf.ts`) -/

/-- An OpenAI-style chat message as supplied by the caller. -/
structure ChatMsg where
  role : String
  content : String
deriving DecidableEq

/-- `IChatMessage_UserMessage`: one outbound conversation turn. -/
structure UserMessage where
  content : Option String
  role : Option Nat
  messageId : Option String
deriving DecidableEq

/-- `IChatMessage_Instructions`. -/
structure Instructions where
  instruction : Option String
deriving DecidableEq

/-- `IChatMessage_Model`. -/
structure ModelInfo where
  name : Option String
  empty : Option String
deriving DecidableEq

/-- `IChatMessage`: the full outbound envelope.  A `null` messages array is
modelled by `[]`, which the encoder treats identically. -/
structure ChatMessageReq where
  messages : List UserMessage
  instructions : Option Instructions
  projectPath : Option String
  model : Option ModelInfo
  requestId : Option String
  summary : Option String
  conversationId : Option String
deriving DecidableEq

/-- Model of `protobufjs` `Writer.string`: varint byte count, then the
UTF-8 bytes. -/
def wString (s : String) : List Nat :=
  wUint32 (utf8Encode s).length ++ utf8Encode s

/-- Model of `protobufjs` `Writer.bytes`: varint byte count, then the raw
bytes (a zero count for the empty buffer). -/
def wBytes (b : List Nat) : List Nat :=
  wUint32 b.length ++ b

/-- Encode an optional field: `null` fields are omitted entirely. -/
def optField {α : Type} : Option α → (α → List Nat) → List Nat
  | none, _ => []
  | some a, f => f a

/-- Per-message encoder body of `encodeChatMessage`: field 1 the content
string, field 2 the role as a varint (`Writer.int32` agrees with
`Writer.uint32` on the non-negative roles 1 and 2 produced here), field 13
the message id. -/
def encodeUserMessage (m : UserMessage) : List Nat :=
  optField m.content (fun s => wUint32 10 ++ wString s) ++
  optField m.role (fun r => wUint32 16 ++ wUint32 r) ++
  optField m.messageId (fun s => wUint32 106 ++ wString s)

def encodeInstructions (i : Instructions) : List Nat :=
  optField i.instruction (fun s => wUint32 10 ++ wString s)

def encodeModel (md : ModelInfo) : List Nat :=
  optField md.name (fun s => wUint32 10 ++ wString s) ++
  optField md.empty (fun s => wUint32 34 ++ wString s)

/-- Model of `encodeChatMessage`.  Note the faithful rendering of
`writer.uint32(18).fork().ldelim()` followed by
`writer.uint32(18).bytes(...)`: the `fork().ldelim()` pair, with nothing
written in between, emits tag byte `0x12` and a zero length, so every
encoded message is preceded by an empty length-delimited field-2 entry. -/
def encodeChatMessage (m : ChatMessageReq) : List Nat :=
  (m.messages.flatMap fun msg =>
    wUint32 18 ++ wUint32 0 ++ wUint32 18 ++ wBytes (encodeUserMessage msg)) ++
  optField m.instructions (fun i => wUint32 34 ++ wBytes (encodeInstructions i)) ++
  optField m.projectPath (fun s => wUint32 42 ++ wString s) ++
  optField m.model (fun md => wUint32 58 ++ wBytes (encodeModel md)) ++
  optField m.requestId (fun s => wUint32 74 ++ wString s) ++
  optField m.summary (fun s => wUint32 90 ++ wString s) ++
  optField m.conversationId (fun s => wUint32 122 ++ wString s)

/-- The message list of `convertToCursorFormat`: content copied verbatim,
role 1 for `user` and 2 otherwise, a fresh UUID per message.  `uuidv4` is
external nondeterminism, modelled by the supplied `ids` sequence of
generated identifiers (index `i` for the `i`-th message). -/
def convertMessages : List ChatMsg → Nat → (Nat → String) → List UserMessage
  | [], _, _ => []
  | m :: rest, i, ids =>
      ⟨some m.content, some (if m.role = "user" then 1 else 2), some (ids i)⟩ ::
        convertMessages rest (i + 1) ids

/-- Model of `convertToCursorFormat`, with the freshly generated UUIDs
(`uuidv4()`) passed in as `msgIds`, `reqId`, `convId`. -/
def convertToCursorFormat (messages : List ChatMsg) (modelName : String)
    (msgIds : Nat → String) (reqId convId : String) : ChatMessageReq where
  messages := convertMessages messages 0 msgIds
  instructions := some ⟨some "Always respond in the user's preferred language"⟩
  projectPath := some "/cursor-sdk-project"
  model := some ⟨some modelName, some ""⟩
  requestId := some reqId
  summary := some ""
  conversationId := some convId

/-- Model of `createHexMessage`: encode, render
`length.toString(16).padStart(10, '0')` followed by the payload hex,
uppercase the whole string, and convert back to bytes with
`Buffer.from(hexString, 'hex')`. -/
def createHexMessage (messages : List ChatMsg) (modelName : String)
    (msgIds : Nat → String) (reqId convId : String) : List Nat :=
  let buffer := encodeChatMessage (convertToCursorFormat messages modelName msgIds reqId convId)
  let hexString := (padZeros 10 (natToHex buffer.length) ++ bytesToHex buffer).map Char.toUpper
  hexPairsToBytes hexString

/-! ## Correctness of the hex rendering -/

/-- Hex digits of a number, most significant first, as plain digit values. -/
def natHexDigits (n : Nat) : List Nat :=
  if n = 0 then [] else natHexDigits (n / 16) ++ [n % 16]
termination_by n
decreasing_by exact Nat.div_lt_self (by omega) (by omega)

/-- Big-endian value of a hex-digit list. -/
def hexValBE (digs : List Nat) : Nat := digs.foldl (fun a d => 16 * a + d) 0

/-- Pair up hex digits into byte values. -/
def pairUp : List Nat → List Nat
  | d1 :: d2 :: rest => (16 * d1 + d2) :: pairUp rest
  | _ => []

theorem natHexChars_eq (n : Nat) : natHexChars n = (natHexDigits n).map hexDigitChar := by
  induction n using Nat.strong_induction_on with
  | _ n ih =>
      rw [natHexChars, natHexDigits]
      by_cases h : n = 0
      · simp [h]
      · rw [if_neg h, if_neg h, List.map_append]
        rw [ih (n / 16) (Nat.div_lt_self (by omega) (by omega))]
        simp

theorem natHexDigits_lt (n : Nat) : ∀ d ∈ natHexDigits n, d < 16 := by
  induction n using Nat.strong_induction_on with
  | _ n ih =>
      intro d hd
      rw [natHexDigits] at hd
      split at hd
      · simp at hd
      · rcases List.mem_append.mp hd with h | h
        · exact ih (n / 16) (Nat.div_lt_self (by omega) (by omega)) d h
        · simp at h; omega

theorem natHexDigits_length (k : Nat) : ∀ n, n < 16 ^ k → (natHexDigits n).length ≤ k := by
  induction k with
  | zero =>
      intro n hn
      have : n = 0 := by simpa using hn
      rw [this, natHexDigits]
      simp
  | succ k ih =>
      intro n hn
      rw [natHexDigits]
      by_cases h : n = 0
      · simp [h]
      · rw [if_neg h]
        have hdiv : n / 16 < 16 ^ k := by
          rw [Nat.div_lt_iff_lt_mul (by omega)]
          calc n < 16 ^ (k + 1) := hn
            _ = 16 ^ k * 16 := by ring
        have := ih (n / 16) hdiv
        simp only [List.length_append, List.length_cons, List.length_nil]
        omega

theorem hexValBE_append_digit (l : List Nat) (d : Nat) :
    hexValBE (l ++ [d]) = 16 * hexValBE l + d := by
  simp [hexValBE, List.foldl_append]

theorem hexValBE_natHexDigits (n : Nat) : hexValBE (natHexDigits n) = n := by
  induction n using Nat.strong_induction_on with
  | _ n ih =>
      rw [natHexDigits]
      by_cases h : n = 0
      · simp [h, hexValBE]
      · rw [if_neg h, hexValBE_append_digit]
        rw [ih (n / 16) (Nat.div_lt_self (by omega) (by omega))]
        omega

theorem hexValBE_replicate_zero (m : Nat) (l : List Nat) :
    hexValBE (List.replicate m 0 ++ l) = hexValBE l := by
  induction m with
  | zero => simp
  | succ m ih =>
      rw [List.replicate_succ, List.cons_append]
      show hexValBE (0 :: (List.replicate m 0 ++ l)) = hexValBE l
      unfold hexValBE at ih ⊢
      simpa using ih

theorem hexDigitVal?_upper (d : Nat) (hd : d < 16) :
    hexDigitVal? (Char.toUpper (hexDigitChar d)) = some d := by
  interval_cases d <;> decide

theorem hexPairsToBytes_cons (c1 c2 : Char) (rest : List Char) (h lo : Nat)
    (hv1 : hexDigitVal? c1 = some h) (hv2 : hexDigitVal? c2 = some lo) :
    hexPairsToBytes (c1 :: c2 :: rest) = (16 * h + lo) :: hexPairsToBytes rest := by
  rw [hexPairsToBytes.eq_def]
  dsimp only
  rw [hv1, hv2]

theorem hexPairsToBytes_upper_digits : ∀ digs : List Nat, (∀ d ∈ digs, d < 16) →
    hexPairsToBytes ((digs.map hexDigitChar).map Char.toUpper) = pairUp digs := by
  intro digs
  induction digs using pairUp.induct with
  | case1 d1 d2 rest ih =>
      intro h
      have h1 : d1 < 16 := h d1 (by simp)
      have h2 : d2 < 16 := h d2 (by simp)
      simp only [List.map_cons]
      rw [hexPairsToBytes_cons _ _ _ d1 d2 (hexDigitVal?_upper d1 h1) (hexDigitVal?_upper d2 h2)]
      rw [ih (fun d hd => h d (by simp [hd]))]
      rfl
  | case2 l hl =>
      intro h
      match l, hl with
      | [], _ => rfl
      | [d], _ => rfl
      | d1 :: d2 :: rest, hl2 => exact (hl2 d1 d2 rest rfl).elim

theorem pairUp_length : ∀ digs : List Nat, (pairUp digs).length = digs.length / 2 := by
  intro digs
  induction digs using pairUp.induct with
  | case1 d1 d2 rest ih =>
      rw [pairUp]
      simp only [List.length_cons, ih]
      omega
  | case2 l hl =>
      match l, hl with
      | [], _ => rfl
      | [d], _ => simp [pairUp.eq_def]
      | d1 :: d2 :: rest, hl2 => exact (hl2 d1 d2 rest rfl).elim

theorem beVal_pairUp_aux : ∀ digs : List Nat, digs.length % 2 = 0 → ∀ a : Nat,
    (pairUp digs).foldl (fun x b => 256 * x + b) a =
      digs.foldl (fun x d => 16 * x + d) a := by
  intro digs
  induction digs using pairUp.induct with
  | case1 d1 d2 rest ih =>
      intro hlen a
      rw [pairUp]
      simp only [List.foldl_cons]
      rw [ih (by simp at hlen ⊢; omega)]
      congr 1
      ring
  | case2 l hl =>
      intro hlen a
      match l, hl with
      | [], _ => rfl
      | [d], _ => simp at hlen
      | d1 :: d2 :: rest, hl2 => exact (hl2 d1 d2 rest rfl).elim

theorem beVal_pairUp (digs : List Nat) (h : digs.length % 2 = 0) :
    beVal (pairUp digs) = hexValBE digs :=
  beVal_pairUp_aux digs h 0

/-- The hex chunk decoder splits across a boundary of complete valid
pairs. -/
theorem hexPairsToBytes_append : ∀ a b : List Char,
    (∀ c ∈ a, (hexDigitVal? c).isSome) → a.length % 2 = 0 →
    hexPairsToBytes (a ++ b) = hexPairsToBytes a ++ hexPairsToBytes b := by
  intro a
  induction a using hexPairsToBytes.induct with
  | case1 c1 c2 rest h lo hv2 hv1 ih =>
      intro b hval hlen
      rw [List.cons_append, List.cons_append]
      rw [hexPairsToBytes_cons _ _ _ h lo hv1 hv2]
      rw [hexPairsToBytes_cons _ _ _ h lo hv1 hv2]
      rw [ih b (fun c hc => hval c (by simp [hc])) (by simp at hlen ⊢; omega)]
      rfl
  | case2 c1 c2 rest hno =>
      intro b hval hlen
      have h1 := hval c1 (by simp)
      have h2 := hval c2 (by simp)
      rcases Option.isSome_iff_exists.mp h1 with ⟨v1, hv1⟩
      rcases Option.isSome_iff_exists.mp h2 with ⟨v2, hv2⟩
      exact (hno v1 v2 hv1 hv2).elim
  | case3 l hl =>
      intro b hval hlen
      match l, hl with
      | [], _ => simp [hexPairsToBytes]
      | [c], _ => simp at hlen
      | c1 :: c2 :: rest, hl2 => exact (hl2 c1 c2 rest rfl).elim

theorem utf8EncodeChar_bytes_lt (c : Char) : ∀ b ∈ utf8EncodeChar c, b < 256 := by
  intro b hb
  have hv := char_toNat_valid c
  have hup : c.toNat < 1114112 := by rcases hv with h | h <;> omega
  rw [utf8EncodeChar] at hb
  split at hb
  · simp at hb; omega
  · split at hb
    · simp at hb
      rcases hb with h | h <;> omega
    · split at hb
      · simp at hb
        rcases hb with h | h | h <;> omega
      · simp at hb
        have : c.toNat / 262144 ≤ 4 := by omega
        rcases hb with h | h | h | h <;> omega

theorem utf8Encode_bytes_lt (s : String) : ∀ b ∈ utf8Encode s, b < 256 := by
  intro b hb
  rw [utf8Encode] at hb
  rcases List.mem_flatMap.mp hb with ⟨c, _, hc⟩
  exact utf8EncodeChar_bytes_lt c b hc

theorem wUint32_bytes_lt (n : Nat) : ∀ b ∈ wUint32 n, b < 256 := by
  intro b hb
  exact varintEnc_bytes_lt _ b hb

theorem wString_bytes_lt (s : String) : ∀ b ∈ wString s, b < 256 := by
  intro b hb
  rw [wString] at hb
  rcases List.mem_append.mp hb with h | h
  · exact wUint32_bytes_lt _ b h
  · exact utf8Encode_bytes_lt s b h

theorem wBytes_bytes_lt (l : List Nat) (hl : ∀ b ∈ l, b < 256) :
    ∀ b ∈ wBytes l, b < 256 := by
  intro b hb
  rw [wBytes] at hb
  rcases List.mem_append.mp hb with h | h
  · exact wUint32_bytes_lt _ b h
  · exact hl b h

theorem optField_bytes_lt {α : Type} (o : Option α) (f : α → List Nat)
    (hf : ∀ a, ∀ b ∈ f a, b < 256) : ∀ b ∈ optField o f, b < 256 := by
  intro b hb
  cases o with
  | none => simp [optField] at hb
  | some a => exact hf a b hb

theorem encodeUserMessage_bytes_lt (m : UserMessage) :
    ∀ b ∈ encodeUserMessage m, b < 256 := by
  intro b hb
  rw [encodeUserMessage] at hb
  rcases List.mem_append.mp hb with h | h
  · rcases List.mem_append.mp h with h2 | h2
    · refine optField_bytes_lt _ _ (fun s b hb2 => ?_) b h2
      rcases List.mem_append.mp hb2 with h3 | h3
      · exact wUint32_bytes_lt _ b h3
      · exact wString_bytes_lt s b h3
    · refine optField_bytes_lt _ _ (fun r b hb2 => ?_) b h2
      rcases List.mem_append.mp hb2 with h3 | h3
      · exact wUint32_bytes_lt _ b h3
      · exact wUint32_bytes_lt _ b h3
  · refine optField_bytes_lt _ _ (fun s b hb2 => ?_) b h
    rcases List.mem_append.mp hb2 with h3 | h3
    · exact wUint32_bytes_lt _ b h3
    · exact wString_bytes_lt s b h3

theorem tagString_bytes_lt (t : Nat) (s : String) :
    ∀ b ∈ wUint32 t ++ wString s, b < 256 := by
  intro b hb
  rcases List.mem_append.mp hb with h | h
  · exact wUint32_bytes_lt _ b h
  · exact wString_bytes_lt s b h

theorem encodeChatMessage_bytes_lt (m : ChatMessageReq) :
    ∀ b ∈ encodeChatMessage m, b < 256 := by
  intro b hb
  rw [encodeChatMessage] at hb
  rcases List.mem_append.mp hb with h | h
  rotate_left
  · exact optField_bytes_lt _ _ (fun s => tagString_bytes_lt 122 s) b h
  rcases List.mem_append.mp h with h | h
  rotate_left
  · exact optField_bytes_lt _ _ (fun s => tagString_bytes_lt 90 s) b h
  rcases List.mem_append.mp h with h | h
  rotate_left
  · exact optField_bytes_lt _ _ (fun s => tagString_bytes_lt 74 s) b h
  rcases List.mem_append.mp h with h | h
  rotate_left
  · refine optField_bytes_lt _ _ (fun md b hb2 => ?_) b h
    rcases List.mem_append.mp hb2 with h3 | h3
    · exact wUint32_bytes_lt _ b h3
    · refine wBytes_bytes_lt _ (fun b hb3 => ?_) b h3
      rw [encodeModel] at hb3
      rcases List.mem_append.mp hb3 with h4 | h4
      · exact optField_bytes_lt _ _ (fun s => tagString_bytes_lt 10 s) b h4
      · exact optField_bytes_lt _ _ (fun s => tagString_bytes_lt 34 s) b h4
  rcases List.mem_append.mp h with h | h
  rotate_left
  · exact optField_bytes_lt _ _ (fun s => tagString_bytes_lt 42 s) b h
  rcases List.mem_append.mp h with h | h
  rotate_left
  · refine optField_bytes_lt _ _ (fun i b hb2 => ?_) b h
    rcases List.mem_append.mp hb2 with h3 | h3
    · exact wUint32_bytes_lt _ b h3
    · refine wBytes_bytes_lt _ (fun b hb3 => ?_) b h3
      rw [encodeInstructions] at hb3
      exact optField_bytes_lt _ _ (fun s => tagString_bytes_lt 10 s) b hb3
  · rcases List.mem_flatMap.mp h with ⟨msg, _, hmsg⟩
    rcases List.mem_append.mp hmsg with h2 | h2
    · rcases List.mem_append.mp h2 with h3 | h3
      · rcases List.mem_append.mp h3 with h4 | h4
        · exact wUint32_bytes_lt _ b h4
        · exact wUint32_bytes_lt _ b h4
      · exact wUint32_bytes_lt _ b h3
    · exact wBytes_bytes_lt _ (encodeUserMessage_bytes_lt msg) b h2

theorem hexPairsToBytes_upper_bytesToHex : ∀ l : List Nat, (∀ b ∈ l, b < 256) →
    hexPairsToBytes ((bytesToHex l).map Char.toUpper) = l := by
  intro l
  induction l with
  | nil => intro _; rfl
  | cons b rest ih =>
      intro h
      have hb : b < 256 := h b (by simp)
      rw [bytesToHex, List.flatMap_cons]
      simp only [List.map_append, List.map_cons, List.map_nil, List.cons_append,
        List.nil_append]
      rw [hexPairsToBytes_cons _ _ _ (b / 16 % 16) (b % 16)
        (hexDigitVal?_upper _ (by omega)) (hexDigitVal?_upper _ (by omega))]
      rw [← bytesToHex]
      rw [ih (fun x hx => h x (by simp [hx]))]
      have : 16 * (b / 16 % 16) + b % 16 = b := by omega
      rw [this]

/-- The digit-value list rendered by `natToHex`. -/
def natHexDigitsFull (n : Nat) : List Nat :=
  if n = 0 then [0] else natHexDigits n

theorem natToHex_eq (n : Nat) : natToHex n = (natHexDigitsFull n).map hexDigitChar := by
  rw [natToHex, natHexDigitsFull]
  by_cases h : n = 0
  · simp [h]
    rfl
  · rw [if_neg h, if_neg h, natHexChars_eq]

theorem natHexDigitsFull_lt (n : Nat) : ∀ d ∈ natHexDigitsFull n, d < 16 := by
  intro d hd
  rw [natHexDigitsFull] at hd
  split at hd
  · simp at hd; omega
  · exact natHexDigits_lt n d hd

theorem hexValBE_natHexDigitsFull (n : Nat) : hexValBE (natHexDigitsFull n) = n := by
  rw [natHexDigitsFull]
  by_cases h : n = 0
  · simp [h]; rfl
  · rw [if_neg h]; exact hexValBE_natHexDigits n

theorem natHexDigitsFull_length (n : Nat) (hn : n < 1099511627776) :
    (natHexDigitsFull n).length ≤ 10 := by
  rw [natHexDigitsFull]
  by_cases h : n = 0
  · simp [h]
  · rw [if_neg h]
    exact natHexDigits_length 10 n (by norm_num; omega)

/-- Length-prefix rendering: for any byte buffer, the hex pipeline of
`createHexMessage` produces a 5-byte head of big-endian value
`buffer.length` followed by the buffer itself. -/
theorem hexPipeline_eq (buffer : List Nat) (hbytes : ∀ b ∈ buffer, b < 256)
    (hlen : buffer.length < 1099511627776) :
    ∃ head : List Nat,
      hexPairsToBytes ((padZeros 10 (natToHex buffer.length) ++ bytesToHex buffer).map
        Char.toUpper) = head ++ buffer ∧
      head.length = 5 ∧ beVal head = buffer.length := by
  set n := buffer.length with hn
  set padDigits := List.replicate (10 - (natHexDigitsFull n).length) 0 ++ natHexDigitsFull n
    with hpd
  have hdiglen : (natHexDigitsFull n).length ≤ 10 := natHexDigitsFull_length n hlen
  have hpadlen : padDigits.length = 10 := by
    rw [hpd]
    simp only [List.length_append, List.length_replicate]
    omega
  have hpadlt : ∀ d ∈ padDigits, d < 16 := by
    intro d hd
    rw [hpd] at hd
    rcases List.mem_append.mp hd with h | h
    · have := List.eq_of_mem_replicate h
      omega
    · exact natHexDigitsFull_lt n d h
  have hzero : ('0' : Char) = hexDigitChar 0 := by decide
  have hpadchars : padZeros 10 (natToHex n) = padDigits.map hexDigitChar := by
    rw [natToHex_eq, padZeros, hpd, List.map_append, List.map_replicate]
    rw [List.length_map, ← hzero]
  refine ⟨pairUp padDigits, ?_, ?_, ?_⟩
  · rw [hpadchars, List.map_append]
    rw [hexPairsToBytes_append]
    · rw [hexPairsToBytes_upper_digits padDigits hpadlt]
      rw [hexPairsToBytes_upper_bytesToHex buffer hbytes]
    · intro c hc
      rcases List.mem_map.mp hc with ⟨c2, hc2, rfl⟩
      rcases List.mem_map.mp hc2 with ⟨d, hd, rfl⟩
      rw [hexDigitVal?_upper d (hpadlt d hd)]
      rfl
    · simp only [List.length_map]
      omega
  · rw [pairUp_length, hpadlen]
  · rw [beVal_pairUp padDigits (by omega), hpd, hexValBE_replicate_zero,
      hexValBE_natHexDigitsFull]

/-- Structure of the `createHexMessage` output: a 5-byte head whose
big-endian value is the payload byte count, then the payload itself. -/
theorem createHexMessage_eq (messages : List ChatMsg) (modelName : String)
    (msgIds : Nat → String) (reqId convId : String)
    (hlen : (encodeChatMessage
      (convertToCursorFormat messages modelName msgIds reqId convId)).length < 1099511627776) :
    ∃ head : List Nat,
      createHexMessage messages modelName msgIds reqId convId =
        head ++ encodeChatMessage (convertToCursorFormat messages modelName msgIds reqId convId) ∧
      head.length = 5 ∧
      beVal head = (encodeChatMessage
        (convertToCursorFormat messages modelName msgIds reqId convId)).length := by
  have h := hexPipeline_eq
    (encodeChatMessage (convertToCursorFormat messages modelName msgIds reqId convId))
    (encodeChatMessage_bytes_lt _) hlen
  exact h

/-! ## Response decoding (`decodeResMessage`, `parseHexResponse`) -/

/-- Model of `protobufjs` `Reader.skip()` (skip one varint): drop bytes while
the continuation bit is set; `none` when the buffer ends first. -/
def skipVarintBytes : List Nat → Option (List Nat)
  | [] => none
  | b :: rest => if b < 128 then some rest else skipVarintBytes rest

/-- Model of `protobufjs` `Reader.string()`: varint byte count, bounds
check, then UTF-8 decode of exactly that many bytes. -/
def readStringP (l : List Nat) : Option (String × List Nat) :=
  match readUint32 l with
  | some (len, rest) =>
      if len ≤ rest.length then some (utf8Decode (rest.take len), rest.drop len)
      else none
  | none => none

mutual
/-- Model of `protobufjs` `Reader.skipType(wireType)`: varint (0), 64-bit
(1), length-delimited (2), group (3, recursively until the matching end-group
tag), 32-bit (5); every other wire type throws.  `fuel` bounds the group
recursion (each step consumes at least one byte, so any `fuel` larger than
the buffer length is enough). -/
def skipTypeF : Nat → Nat → List Nat → Option (List Nat)
  | 0, _, _ => none
  | fuel + 1, w, l =>
      if w = 0 then skipVarintBytes l
      else if w = 1 then (if 8 ≤ l.length then some (l.drop 8) else none)
      else if w = 2 then
        match readUint32 l with
        | some (len, rest) => if len ≤ rest.length then some (rest.drop len) else none
        | none => none
      else if w = 5 then (if 4 ≤ l.length then some (l.drop 4) else none)
      else if w = 3 then skipGroupF fuel l
      else none

/-- The wire-type-3 loop of `skipType`: read tags and skip payloads until an
end-group tag. -/
def skipGroupF : Nat → List Nat → Option (List Nat)
  | 0, _ => none
  | fuel + 1, l =>
      match readUint32 l with
      | some (tag, rest) =>
          if tag % 8 = 4 then some rest
          else
            match skipTypeF fuel (tag % 8) rest with
            | some rest2 => skipGroupF fuel rest2
            | none => none
      | none => none
end

/-- The tag-dispatch loop of `decodeResMessage`: field 1 is read with
`reader.string()` into `msg` (later occurrences overwrite), every other
field is skipped with `skipType`.  The result is `none` where the reader
throws, otherwise the final `msg` member (`none` when field 1 never
occurred).  `fuel` only bounds the loop; the wrapper passes more than the
buffer length, which one consumed byte per iteration makes sufficient. -/
def decodeResLoop : Nat → List Nat → Option String → Option (Option String)
  | 0, _, _ => none
  | _ + 1, [], acc => some acc
  | fuel + 1, l, acc =>
      match readUint32 l with
      | none => none
      | some (tag, rest) =>
          if tag / 8 = 1 then
            match readStringP rest with
            | some (s, rest2) => decodeResLoop fuel rest2 (some s)
            | none => none
          else
            match skipTypeF (rest.length + 1) (tag % 8) rest with
            | some rest2 => decodeResLoop fuel rest2 acc
            | none => none

/-- Model of `decodeResMessage`: walk the buffer tag by tag. -/
def decodeResMessage (l : List Nat) : Option (Option String) :=
  decodeResLoop (l.length + 1) l none

/-- Model of `parseHexResponse`, stated over the bytes that the hex string
renders (the function is only ever called on `Buffer.toString('hex')`
output, so hex offsets are exactly twice byte offsets, the 10-hex-digit
`parseInt(..., 16)` length prefix is the big-endian value of 5 bytes, and
every slice boundary is a byte boundary).  Stop when fewer than 5 bytes
remain or the declared length overruns the buffer; decode each framed
message, collecting `msg` values that are present and non-empty (the
JavaScript truthiness test `if (message.msg)`); a message whose decode
throws is skipped. -/
def parseHexResponse (l : List Nat) : List String :=
  if h5 : l.length < 5 then []
  else
    let len := beVal (l.take 5)
    let rest := l.drop 5
    if hlen : rest.length < len then []
    else
      let msgBytes := rest.take len
      let tail := rest.drop len
      match decodeResMessage msgBytes with
      | some (some s) => if s = "" then parseHexResponse tail else s :: parseHexResponse tail
      | _ => parseHexResponse tail
termination_by l.length
decreasing_by
  all_goals simp only [List.length_drop]
  all_goals omega

/-! ## Minimal JSON model

`jsonParse` models `JSON.parse` on the matched brace span, `jsonStringify`
models `JSON.stringify`.  Numbers are restricted to integers (a fraction or
exponent makes the parse fail); `\u` escapes assemble the code point
directly, without surrogate pairing.  Both restrictions are noted model
simplifications; every concrete input used in a theorem below stays inside
the faithful fragment. -/

inductive Json where
  | null
  | bool (b : Bool)
  | num (n : Int)
  | str (s : String)
  | arr (xs : List Json)
  | obj (fields : List (String × Json))

/-- JSON insignificant whitespace (space, tab, newline, carriage return). -/
def isJsonWs (c : Char) : Bool :=
  c = ' ' || c = '\t' || c = '\n' || c = '\r'

def skipWsJ (l : List Char) : List Char := l.dropWhile isJsonWs

def isDigitChar (c : Char) : Bool := 48 ≤ c.toNat && c.toNat ≤ 57

def digitsVal (l : List Char) : Nat :=
  l.foldl (fun a c => 10 * a + (c.toNat - 48)) 0

/-- Body of a JSON string after the opening quote: plain characters up to
the closing quote, with the standard escapes. -/
def parseJStringAux : Nat → List Char → List Char → Option (String × List Char)
  | 0, _, _ => none
  | _ + 1, _, [] => none
  | fuel + 1, acc, c :: rest =>
      if c = '"' then some (⟨acc.reverse⟩, rest)
      else if c = '\\' then
        match rest with
        | [] => none
        | e :: rest2 =>
            if e = '"' then parseJStringAux fuel ('"' :: acc) rest2
            else if e = '\\' then parseJStringAux fuel ('\\' :: acc) rest2
            else if e = '/' then parseJStringAux fuel ('/' :: acc) rest2
            else if e = 'b' then parseJStringAux fuel (Char.ofNat 8 :: acc) rest2
            else if e = 'f' then parseJStringAux fuel (Char.ofNat 12 :: acc) rest2
            else if e = 'n' then parseJStringAux fuel ('\n' :: acc) rest2
            else if e = 'r' then parseJStringAux fuel ('\r' :: acc) rest2
            else if e = 't' then parseJStringAux fuel ('\t' :: acc) rest2
            else if e = 'u' then
              match rest2 with
              | h1 :: h2 :: h3 :: h4 :: rest3 =>
                  match hexDigitVal? h1, hexDigitVal? h2, hexDigitVal? h3, hexDigitVal? h4 with
                  | some v1, some v2, some v3, some v4 =>
                      parseJStringAux fuel
                        (Char.ofNat (4096 * v1 + 256 * v2 + 16 * v3 + v4) :: acc) rest3
                  | _, _, _, _ => none
              | _ => none
            else none
      else if c.toNat < 32 then none
      else parseJStringAux fuel (c :: acc) rest

/-- JSON number parsing, integers only: optional minus, digits without a
redundant leading zero, and no fraction or exponent (those are outside the
model and make the parse fail). -/
def parseJNumber (l : List Char) : Option (Json × List Char) :=
  let (neg, l1) := match l with
    | '-' :: r => (true, r)
    | _ => (false, l)
  let digits := l1.takeWhile isDigitChar
  let rest := l1.dropWhile isDigitChar
  if digits = [] then none
  else if 1 < digits.length ∧ digits.headD '0' = '0' then none
  else match rest with
    | '.' :: _ => none
    | 'e' :: _ => none
    | 'E' :: _ => none
    | _ =>
        let v : Int := (digitsVal digits : Nat)
        some (Json.num (if neg then -v else v), rest)

/-- Consume an expected literal (`true`, `false`, `null` tails). -/
def expectLit (lit : List Char) (l : List Char) : Option (List Char) :=
  if lit.isPrefixOf l then some (l.drop lit.length) else none

mutual
/-- One JSON value, leading whitespace allowed.  `fuel` bounds nesting and
list length; the top-level wrapper passes more than the input length, which
one consumed character per step makes sufficient. -/
def parseJValue : Nat → List Char → Option (Json × List Char)
  | 0, _ => none
  | fuel + 1, l0 =>
      match skipWsJ l0 with
      | [] => none
      | c :: rest =>
          if c = '{' then
            match skipWsJ rest with
            | '}' :: r => some (Json.obj [], r)
            | r => parseJObjLoop fuel r []
          else if c = '[' then
            match skipWsJ rest with
            | ']' :: r => some (Json.arr [], r)
            | r => parseJArrLoop fuel r []
          else if c = '"' then
            match parseJStringAux (rest.length + 1) [] rest with
            | some (s, r) => some (Json.str s, r)
            | none => none
          else if c = 't' then
            match expectLit "rue".data rest with
            | some r => some (Json.bool true, r)
            | none => none
          else if c = 'f' then
            match expectLit "alse".data rest with
            | some r => some (Json.bool false, r)
            | none => none
          else if c = 'n' then
            match expectLit "ull".data rest with
            | some r => some (Json.null, r)
            | none => none
          else parseJNumber (c :: rest)

/-- Members of an object after the opening brace (nonempty case). -/
def parseJObjLoop : Nat → List Char → List (String × Json) → Option (Json × List Char)
  | 0, _, _ => none
  | fuel + 1, l, acc =>
      match skipWsJ l with
      | '"' :: rest =>
          match parseJStringAux (rest.length + 1) [] rest with
          | none => none
          | some (key, r1) =>
              match skipWsJ r1 with
              | ':' :: r2 =>
                  match parseJValue fuel r2 with
                  | none => none
                  | some (v, r3) =>
                      match skipWsJ r3 with
                      | ',' :: r4 => parseJObjLoop fuel r4 (acc ++ [(key, v)])
                      | '}' :: r4 => some (Json.obj (acc ++ [(key, v)]), r4)
                      | _ => none
              | _ => none
      | _ => none

/-- Items of an array after the opening bracket (nonempty case). -/
def parseJArrLoop : Nat → List Char → List Json → Option (Json × List Char)
  | 0, _, _ => none
  | fuel + 1, l, acc =>
      match parseJValue fuel l with
      | none => none
      | some (v, r1) =>
          match skipWsJ r1 with
          | ',' :: r2 => parseJArrLoop fuel r2 (acc ++ [v])
          | ']' :: r2 => some (Json.arr (acc ++ [v]), r2)
          | _ => none
end

/-- Model of `JSON.parse` on a character list: one value, then only
whitespace may remain. -/
def jsonParse (l : List Char) : Option Json :=
  match parseJValue (l.length + 1) l with
  | some (v, rest) => if skipWsJ rest = [] then some v else none
  | none => none

/-- Member access `parsed.error`: on an object the last binding of the key
(later duplicate keys win in JavaScript), `none` (undefined) otherwise. -/
def objGet? (v : Json) (k : String) : Option Json :=
  match v with
  | Json.obj fields => ((fields.reverse.find? (fun p => p.1 = k)).map (·.2))
  | _ => none

/-- JavaScript truthiness of a JSON value. -/
def jsTruthy : Json → Bool
  | Json.null => false
  | Json.bool b => b
  | Json.num n => n ≠ 0
  | Json.str s => s ≠ ""
  | Json.arr _ => true
  | Json.obj _ => true

/-- String escaping of `JSON.stringify`. -/
def escapeJChar (c : Char) : List Char :=
  if c = '"' then ['\\', '"']
  else if c = '\\' then ['\\', '\\']
  else if c = Char.ofNat 8 then ['\\', 'b']
  else if c = Char.ofNat 12 then ['\\', 'f']
  else if c = '\n' then ['\\', 'n']
  else if c = '\r' then ['\\', 'r']
  else if c = '\t' then ['\\', 't']
  else if c.toNat < 32 then
    ['\\', 'u', '0', '0', hexDigitChar (c.toNat / 16), hexDigitChar (c.toNat % 16)]
  else [c]

def jsonStringifyStr (s : String) : String :=
  ⟨'"' :: (s.data.flatMap escapeJChar ++ ['"'])⟩

mutual
/-- Model of `JSON.stringify` (no spacing argument). -/
def jsonStringify : Json → String
  | Json.null => "null"
  | Json.bool true => "true"
  | Json.bool false => "false"
  | Json.num n => toString n
  | Json.str s => jsonStringifyStr s
  | Json.arr xs => "[" ++ jsonStringifyArr xs ++ "]"
  | Json.obj fs => "\x7b" ++ jsonStringifyObj fs ++ "\x7d"

def jsonStringifyArr : List Json → String
  | [] => ""
  | [x] => jsonStringify x
  | x :: y :: rest => jsonStringify x ++ "," ++ jsonStringifyArr (y :: rest)

def jsonStringifyObj : List (String × Json) → String
  | [] => ""
  | [(k, v)] => jsonStringifyStr k ++ ":" ++ jsonStringify v
  | (k, v) :: p :: rest =>
      jsonStringifyStr k ++ ":" ++ jsonStringify v ++ "," ++ jsonStringifyObj (p :: rest)
end

/-! ## Stream chunk processing (`processChunk`, `core/streaming.ts`) -/

/-- The gzip magic bytes `1F 8B`. -/
def gzipMagic : List Nat := [31, 139]

/-- The literal substring tested by `text.includes('\x7b"error"')`. -/
def errLit : List Char := "\x7b\"error\"".data

/-- The suffix starting at the first occurrence of `c`, `none` when `c` does
not occur. -/
def dropUntilChar (c : Char) : List Char → Option (List Char)
  | [] => none
  | a :: l => if a = c then some (a :: l) else dropUntilChar c l

/-- The prefix through the first occurrence of `c`, `none` when `c` does not
occur. -/
def takeThroughChar (c : Char) : List Char → Option (List Char)
  | [] => none
  | a :: l => if a = c then some [a] else (takeThroughChar c l).map (a :: ·)

/-- The leftmost match of `text.match(/\x7b[^]*?\x7d/)`: from the first
opening brace through the first closing brace after it (lazy body, leftmost
start). -/
def firstBraceSpan (l : List Char) : Option (List Char) :=
  (dropUntilChar '{' l).bind (takeThroughChar '}')

/-- Model of `String.prototype.includes` for a nonempty pattern. -/
def occursIn (pat l : List Char) : Bool := (dropAfterOcc? pat l).isSome

/-- The headered-text branch of `processChunk`: when the text contains the
literal `\x7b"error"`, the first brace span is matched and `JSON.parse`d; a
parse that yields an object with a truthy `error` member throws
`API Error: <serialized error>` (re-thrown by both `catch` blocks); every
other outcome — no match, malformed JSON, no or falsy `error` member —
falls through to plain cleaning.  `JSON.stringify` of a truthy value is
never empty, so the `|| 'Unknown error'` fallback is dead and omitted. -/
def headeredTextStep (text : String) : Except String String :=
  if occursIn errLit text.data then
    match firstBraceSpan text.data with
    | some span =>
        match jsonParse span with
        | some v =>
            match objGet? v "error" with
            | some e =>
                if jsTruthy e then Except.error ("API Error: " ++ jsonStringify e)
                else Except.ok (cleanResponseText text)
            | none => Except.ok (cleanResponseText text)
        | none => Except.ok (cleanResponseText text)
    | none => Except.ok (cleanResponseText text)
  else Except.ok (cleanResponseText text)

/-- The code of `processChunk` past the header block: the direct-gzip check
on the whole chunk, then hex/protobuf parsing, then the raw-UTF-8
fallback. -/
def processChunkTail (gz : List Nat → Option String) (chunk : List Nat) :
    Except String String :=
  if chunk.take 2 = gzipMagic then
    match gz chunk with
    | some text => Except.ok (cleanResponseText text)
    | none => Except.ok ""
  else
    let msgs := parseHexResponse chunk
    if 0 < msgs.length then Except.ok (String.join msgs)
    else Except.ok (cleanResponseText (utf8Decode chunk))

/-- Model of `processChunk`.  `gz` is the zlib `gunzip`-then-UTF-8-decode
oracle (`none` = decompression failure, which the handler converts to an
empty string).  The trailing `catch` of the source re-throws `API Error:`
messages and otherwise falls back to stripped raw UTF-8; inside this model
the only throw is the API error, which is re-thrown, so the fallback branch
is unreachable and the model returns the try body's result directly. -/
def processChunk (gz : List Nat → Option String) (chunk : List Nat) :
    Except String String :=
  if 5 < chunk.length then
    let headerSize : Nat :=
      if chunk.take 3 = [1, 0, 0] then 5
      else if chunk.take 3 = [2, 0, 0] then 5
      else 0
    let payload := chunk.drop headerSize
    if payload.take 2 = gzipMagic then
      match gz payload with
      | some text => Except.ok (cleanResponseText text)
      | none => Except.ok ""
    else if 0 < headerSize then headeredTextStep (utf8Decode payload)
    else processChunkTail gz chunk
  else processChunkTail gz chunk

/-! ## Streaming assembler (`CursorStream`) -/

/-- The caller-visible shape of one emitted `ChatCompletionChunk`: its
`choices[0].delta.content` and `choices[0].finish_reason` members (id,
object, created and model are constant metadata). -/
structure ChunkOut where
  deltaContent : Option String
  finishReason : Option String
deriving DecidableEq

/-- `enqueueChunk(content)`: a delta carrying content and no finish
reason. -/
def contentChunk (t : String) : ChunkOut := ⟨some t, none⟩

/-- `enqueueFinalChunk()`: an empty delta with `finish_reason: "stop"`. -/
def finalChunk : ChunkOut := ⟨none, some "stop"⟩

/-- The mutable per-stream state of `CursorStream` (`lastActivity` is real
time; its single use is abstracted into the `idleExceeded` flag of the
timeout event). -/
structure StreamSt where
  done : Bool
  chunkCount : Nat
  emptyChunkCount : Nat
deriving DecidableEq

def initialStreamState : StreamSt := ⟨false, 0, 0⟩

/-- The outcome of `Promise.race([reader.read(), timeoutPromise])` as seen
by one pull iteration: `readEnd` is any result with `done: true` (reader
completion or the 5-second race timeout), `readNone` a `done: false` result
without a value (`idleExceeded` abstracts
`Date.now() - lastActivity > idleTimeout`), `readFrame` a received byte
chunk. -/
inductive ReadEvent where
  | readEnd
  | readNone (idleExceeded : Bool)
  | readFrame (v : List Nat)

/-- What a pull iteration does to the `ReadableStream` controller besides
enqueueing: nothing, `close()`, or `error(e)`. -/
inductive PullSignal where
  | keepOpen
  | closed
  | errored (msg : String)
deriving DecidableEq

/-- One iteration of the `pull` callback of `CursorStream.toStream`,
returning the successor state, the chunks enqueued (in order), and the
controller signal.  The 50 ms pause for small empty frames changes no
state and is not represented. -/
def pullStep (gz : List Nat → Option String) (st : StreamSt) (ev : ReadEvent) :
    StreamSt × List ChunkOut × PullSignal :=
  if st.done then (st, [], PullSignal.closed)
  else match ev with
  | ReadEvent.readEnd => ({ st with done := true }, [finalChunk], PullSignal.closed)
  | ReadEvent.readNone idle =>
      if 0 < st.chunkCount ∧ idle then
        ({ st with done := true }, [finalChunk], PullSignal.closed)
      else (st, [], PullSignal.keepOpen)
  | ReadEvent.readFrame v =>
      match processChunk gz v with
      | Except.error e => (st, [], PullSignal.errored e)
      | Except.ok text =>
          if 5 ≤ v.length ∧ v.take 3 = [2, 0, 0] ∧ jsTrim (utf8Decode (v.drop 5)) = "{}" then
            ({ st with done := true }, [finalChunk], PullSignal.closed)
          else if text = "" then
            if 0 < st.chunkCount ∧ 2 ≤ st.emptyChunkCount + 1 then
              ({ st with done := true, emptyChunkCount := st.emptyChunkCount + 1 },
                [finalChunk], PullSignal.closed)
            else ({ st with emptyChunkCount := st.emptyChunkCount + 1 }, [],
              PullSignal.keepOpen)
          else ({ st with emptyChunkCount := 0, chunkCount := st.chunkCount + 1 },
            [contentChunk text], PullSignal.keepOpen)

/-- A whole run of the pull loop over a sequence of read events, collecting
every chunk enqueued. -/
def runPull (gz : List Nat → Option String) : StreamSt → List ReadEvent →
    List ChunkOut × StreamSt
  | st, [] => ([], st)
  | st, e :: evs =>
      let r := pullStep gz st e
      let rest := runPull gz r.1 evs
      (r.2.1 ++ rest.1, rest.2)

/-! ## Parameter validation and request building
(`src/resources/chat/completions.ts`) -/

/-- The client-side bad-request failure (`BadRequestError`). -/
inductive ApiFailure where
  | badRequest (msg : String)
deriving DecidableEq

/-- The per-message loop of `validateParams`. -/
def validateEach : List ChatMsg → Except ApiFailure Unit
  | [] => Except.ok ()
  | m :: rest =>
      if m.role = "" ∨ m.content = "" then
        Except.error (ApiFailure.badRequest "Each message must have role and content")
      else if ¬(m.role = "system" ∨ m.role = "user" ∨ m.role = "assistant") then
        Except.error (ApiFailure.badRequest "Message role must be system, user, or assistant")
      else validateEach rest

/-- Model of `validateParams`: empty message list, then falsy (empty) model
string, then the per-message checks. -/
def validateParams (messages : List ChatMsg) (model : String) : Except ApiFailure Unit :=
  if messages = [] then
    Except.error (ApiFailure.badRequest "Messages should be a non-empty array")
  else if model = "" then Except.error (ApiFailure.badRequest "Model is required")
  else validateEach messages

/-- The observable outbound effect of `create`: the fixed RPC path and the
encoded body handed to `client.post`. -/
structure SentRequest where
  path : String
  body : List Nat
deriving DecidableEq

/-- Model of `ChatCompletions.create` up to the transport call: validate,
then encode, then (when validation passed) issue exactly one POST whose
body is the framed message.  An `Except.error` result means no encoding ran
and no request was sent (in the source, `validateParams` throws before
`createHexMessage` and `client.post` are reached). -/
def createRequest (messages : List ChatMsg) (model : String)
    (msgIds : Nat → String) (reqId convId : String) : Except ApiFailure SentRequest :=
  match validateParams messages model with
  | Except.error e => Except.error e
  | Except.ok _ =>
      Except.ok ⟨"/aiserver.v1.AiService/StreamChat",
        createHexMessage messages model msgIds reqId convId⟩

/-! ## Mirror decoder for the request schema (test-only) -/

/-- Model of a length-delimited field read (`Reader.bytes`): varint byte
count, bounds check, slice. -/
def readBytesP (l : List Nat) : Option (List Nat × List Nat) :=
  match readUint32 l with
  | some (len, rest) =>
      if len ≤ rest.length then some (rest.take len, rest.drop len) else none
  | none => none

/-- Modelled from the spec: the repository ships no decoder for the full
request schema — §8 calls the round-trip partner "a test-only mirror
decoder" of the Message Schema Adapter.  This loop decodes one
`WireMessage` with the spec's nested field numbers `content`→1 (string),
`role`→2 (varint), `messageId`→13 (string); unknown tags are skipped. -/
def decodeUserLoop : Nat → List Nat → UserMessage → Option UserMessage
  | 0, _, _ => none
  | fuel + 1, l, acc =>
      if l = [] then some acc
      else
        match readUint32 l with
        | none => none
        | some (tag, rest) =>
            if tag / 8 = 1 then
              match readStringP rest with
              | some (s, rest2) => decodeUserLoop fuel rest2 { acc with content := some s }
              | none => none
            else if tag / 8 = 2 then
              match readUint32 rest with
              | some (n, rest2) => decodeUserLoop fuel rest2 { acc with role := some n }
              | none => none
            else if tag / 8 = 13 then
              match readStringP rest with
              | some (s, rest2) => decodeUserLoop fuel rest2 { acc with messageId := some s }
              | none => none
            else
              match skipTypeF (rest.length + 1) (tag % 8) rest with
              | some rest2 => decodeUserLoop fuel rest2 acc
              | none => none

def decodeUserMessage (l : List Nat) : Option UserMessage :=
  decodeUserLoop (l.length + 1) l ⟨none, none, none⟩

/-- Modelled from the spec: mirror decode of the nested `instructions`
message, `instruction`→1. -/
def decodeInstrLoop : Nat → List Nat → Instructions → Option Instructions
  | 0, _, _ => none
  | fuel + 1, l, acc =>
      if l = [] then some acc
      else
        match readUint32 l with
        | none => none
        | some (tag, rest) =>
            if tag / 8 = 1 then
              match readStringP rest with
              | some (s, rest2) => decodeInstrLoop fuel rest2 { acc with instruction := some s }
              | none => none
            else
              match skipTypeF (rest.length + 1) (tag % 8) rest with
              | some rest2 => decodeInstrLoop fuel rest2 acc
              | none => none

def decodeInstructions (l : List Nat) : Option Instructions :=
  decodeInstrLoop (l.length + 1) l ⟨none⟩

/-- Modelled from the spec: mirror decode of the nested `model` message,
`name`→1, `empty`→4. -/
def decodeModelLoop : Nat → List Nat → ModelInfo → Option ModelInfo
  | 0, _, _ => none
  | fuel + 1, l, acc =>
      if l = [] then some acc
      else
        match readUint32 l with
        | none => none
        | some (tag, rest) =>
            if tag / 8 = 1 then
              match readStringP rest with
              | some (s, rest2) => decodeModelLoop fuel rest2 { acc with name := some s }
              | none => none
            else if tag / 8 = 4 then
              match readStringP rest with
              | some (s, rest2) => decodeModelLoop fuel rest2 { acc with empty := some s }
              | none => none
            else
              match skipTypeF (rest.length + 1) (tag % 8) rest with
              | some rest2 => decodeModelLoop fuel rest2 acc
              | none => none

def decodeModel (l : List Nat) : Option ModelInfo :=
  decodeModelLoop (l.length + 1) l ⟨none, none⟩

/-- Modelled from the spec: the top-level mirror decoder with the spec's
field map `messages`→2 (repeated, each a length-delimited `WireMessage`),
`instructions`→4, `projectPath`→5, `model`→7, `requestId`→9, `summary`→11,
`conversationId`→15; unknown tags are skipped. -/
def decodeChatLoop : Nat → List Nat → ChatMessageReq → Option ChatMessageReq
  | 0, _, _ => none
  | fuel + 1, l, acc =>
      if l = [] then some acc
      else
        match readUint32 l with
        | none => none
        | some (tag, rest) =>
            if tag / 8 = 2 then
              match readBytesP rest with
              | some (sub, rest2) =>
                  match decodeUserMessage sub with
                  | some msg =>
                      decodeChatLoop fuel rest2 { acc with messages := acc.messages ++ [msg] }
                  | none => none
              | none => none
            else if tag / 8 = 4 then
              match readBytesP rest with
              | some (sub, rest2) =>
                  match decodeInstructions sub with
                  | some i => decodeChatLoop fuel rest2 { acc with instructions := some i }
                  | none => none
              | none => none
            else if tag / 8 = 5 then
              match readStringP rest with
              | some (s, rest2) => decodeChatLoop fuel rest2 { acc with projectPath := some s }
              | none => none
            else if tag / 8 = 7 then
              match readBytesP rest with
              | some (sub, rest2) =>
                  match decodeModel sub with
                  | some md => decodeChatLoop fuel rest2 { acc with model := some md }
                  | none => none
              | none => none
            else if tag / 8 = 9 then
              match readStringP rest with
              | some (s, rest2) => decodeChatLoop fuel rest2 { acc with requestId := some s }
              | none => none
            else if tag / 8 = 11 then
              match readStringP rest with
              | some (s, rest2) => decodeChatLoop fuel rest2 { acc with summary := some s }
              | none => none
            else if tag / 8 = 15 then
              match readStringP rest with
              | some (s, rest2) => decodeChatLoop fuel rest2 { acc with conversationId := some s }
              | none => none
            else
              match skipTypeF (rest.length + 1) (tag % 8) rest with
              | some rest2 => decodeChatLoop fuel rest2 acc
              | none => none

/-- Modelled from the spec: whole-buffer mirror decode of the request
payload. -/
def decodeChatMessage (l : List Nat) : Option ChatMessageReq :=
  decodeChatLoop (l.length + 1) l ⟨[], none, none, none, none, none, none⟩

/-! ## Round-trip lemmas for the request encoding -/

theorem readStringP_wString (s : String) (rest : List Nat)
    (h : (utf8Encode s).length < 4294967296) :
    readStringP (wString s ++ rest) = some (s, rest) := by
  rw [wString, List.append_assoc, readStringP, readUint32_wUint32 _ h]
  dsimp only
  rw [if_pos (by simp)]
  rw [List.take_left, List.drop_left]
  rw [utf8Decode_encode]

theorem readBytesP_wBytes (b : List Nat) (rest : List Nat)
    (h : b.length < 4294967296) :
    readBytesP (wBytes b ++ rest) = some (b, rest) := by
  rw [wBytes, List.append_assoc, readBytesP, readUint32_wUint32 _ h]
  dsimp only
  rw [if_pos (by simp)]
  rw [List.take_left, List.drop_left]

theorem wUint32_ne_nil (n : Nat) : wUint32 n ≠ [] := varintEnc_ne_nil _

theorem append_ne_nil_of_left {α : Type} {a : List α} (b : List α) (h : a ≠ []) :
    a ++ b ≠ [] := by
  intro hc
  rcases List.append_eq_nil.mp hc with ⟨h1, _⟩
  exact h h1

/-- Step a string field with a concrete tag through `decodeUserLoop`. -/
theorem decodeUserLoop_step_content (fuel : Nat) (s : String) (rest : List Nat)
    (acc : UserMessage) (h : (utf8Encode s).length < 4294967296) :
    decodeUserLoop (fuel + 1) (wUint32 10 ++ (wString s ++ rest)) acc =
      decodeUserLoop fuel rest { acc with content := some s } := by
  rw [decodeUserLoop]
  rw [if_neg (append_ne_nil_of_left _ (wUint32_ne_nil 10))]
  rw [readUint32_wUint32 10 (by norm_num) _]
  dsimp only
  norm_num
  rw [readStringP_wString s rest h]

theorem decodeUserLoop_step_role (fuel : Nat) (r : Nat) (rest : List Nat)
    (acc : UserMessage) (hr : r < 4294967296) :
    decodeUserLoop (fuel + 1) (wUint32 16 ++ (wUint32 r ++ rest)) acc =
      decodeUserLoop fuel rest { acc with role := some r } := by
  rw [decodeUserLoop]
  rw [if_neg (append_ne_nil_of_left _ (wUint32_ne_nil 16))]
  rw [readUint32_wUint32 16 (by norm_num) _]
  dsimp only
  norm_num
  rw [readUint32_wUint32 r hr]

theorem decodeUserLoop_step_messageId (fuel : Nat) (s : String) (rest : List Nat)
    (acc : UserMessage) (h : (utf8Encode s).length < 4294967296) :
    decodeUserLoop (fuel + 1) (wUint32 106 ++ (wString s ++ rest)) acc =
      decodeUserLoop fuel rest { acc with messageId := some s } := by
  rw [decodeUserLoop]
  rw [if_neg (append_ne_nil_of_left _ (wUint32_ne_nil 106))]
  rw [readUint32_wUint32 106 (by norm_num) _]
  dsimp only
  norm_num
  rw [readStringP_wString s rest h]

theorem decodeUserLoop_nil (fuel : Nat) (acc : UserMessage) :
    decodeUserLoop (fuel + 1) [] acc = some acc := by
  rw [decodeUserLoop]
  rw [if_pos rfl]

/-- Mirror decode of one encoded `WireMessage` with all three fields
present (the shape `convertToCursorFormat` always produces). -/
theorem decodeUserMessage_encode (c id : String) (r : Nat)
    (hc : (utf8Encode c).length < 4294967296)
    (hid : (utf8Encode id).length < 4294967296) (hr : r < 4294967296) :
    decodeUserMessage (encodeUserMessage ⟨some c, some r, some id⟩) = some ⟨some c, some r, some id⟩ := by
  have henc : encodeUserMessage ⟨some c, some r, some id⟩ =
      wUint32 10 ++ (wString c ++ (wUint32 16 ++ (wUint32 r ++
        (wUint32 106 ++ (wString id ++ []))))) := by
    simp [encodeUserMessage, optField]
  rw [decodeUserMessage, henc]
  have hfuel : ∃ g, (wUint32 10 ++ (wString c ++ (wUint32 16 ++ (wUint32 r ++
      (wUint32 106 ++ (wString id ++ [])))))).length + 1 = g + 4 := by
    refine ⟨(wUint32 10 ++ (wString c ++ (wUint32 16 ++ (wUint32 r ++
      (wUint32 106 ++ (wString id ++ [])))))).length - 3, ?_⟩
    have h1 : 1 ≤ (wUint32 10).length := List.length_pos.mpr (wUint32_ne_nil 10)
    have h2 : 1 ≤ (wUint32 16).length := List.length_pos.mpr (wUint32_ne_nil 16)
    have h3 : 1 ≤ (wUint32 106).length := List.length_pos.mpr (wUint32_ne_nil 106)
    simp only [List.length_append]
    omega
  obtain ⟨g, hg⟩ := hfuel
  rw [hg]
  show decodeUserLoop (g + 3 + 1) _ _ = _
  rw [decodeUserLoop_step_content (g + 3) c _ _ hc]
  show decodeUserLoop (g + 2 + 1) _ _ = _
  rw [decodeUserLoop_step_role (g + 2) r _ _ hr]
  show decodeUserLoop (g + 1 + 1) _ _ = _
  rw [decodeUserLoop_step_messageId (g + 1) id _ _ hid]
  rw [decodeUserLoop_nil]

theorem readStringP_wString_nil (s : String)
    (h : (utf8Encode s).length < 4294967296) :
    readStringP (wString s) = some (s, []) := by
  have h2 := readStringP_wString s [] h
  rwa [List.append_nil] at h2

theorem wUint32_length_le (n : Nat) : (wUint32 n).length ≤ 5 := by
  have h := varintEnc_length_le 4 (n % 4294967296) (by
    have := Nat.mod_lt n (y := 4294967296) (by norm_num)
    norm_num
    omega)
  exact h

theorem wString_length_le (s : String) :
    (wString s).length ≤ 5 + (utf8Encode s).length := by
  rw [wString]
  simp only [List.length_append]
  have := wUint32_length_le (utf8Encode s).length
  omega

theorem encodeUserMessage_conv_length_lt (c id : String) (r : Nat)
    (hc : (utf8Encode c).length < 268435456) (hid : (utf8Encode id).length < 268435456) :
    (encodeUserMessage ⟨some c, some r, some id⟩).length < 4294967296 := by
  have henc : encodeUserMessage ⟨some c, some r, some id⟩ =
      wUint32 10 ++ wString c ++ (wUint32 16 ++ wUint32 r) ++ (wUint32 106 ++ wString id) := by
    simp [encodeUserMessage, optField]
  rw [henc]
  simp only [List.length_append]
  have h1 := wUint32_length_le 10
  have h2 := wUint32_length_le 16
  have h3 := wUint32_length_le r
  have h4 := wUint32_length_le 106
  have h5 := wString_length_le c
  have h6 := wString_length_le id
  omega

/-- Step one repeated-message entry through the top-level mirror loop. -/
theorem decodeChatLoop_step_msg (fuel : Nat) (b : List Nat) (rest : List Nat)
    (acc : ChatMessageReq) (msg : UserMessage) (hb : b.length < 4294967296)
    (hdec : decodeUserMessage b = some msg) :
    decodeChatLoop (fuel + 1) (wUint32 18 ++ (wBytes b ++ rest)) acc =
      decodeChatLoop fuel rest { acc with messages := acc.messages ++ [msg] } := by
  rw [decodeChatLoop]
  rw [if_neg (append_ne_nil_of_left _ (wUint32_ne_nil 18))]
  rw [readUint32_wUint32 18 (by norm_num) _]
  dsimp only
  norm_num
  rw [readBytesP_wBytes b rest hb]
  dsimp only
  rw [hdec]

theorem decodeChatLoop_step_instr (fuel : Nat) (b : List Nat) (rest : List Nat)
    (acc : ChatMessageReq) (i : Instructions) (hb : b.length < 4294967296)
    (hdec : decodeInstructions b = some i) :
    decodeChatLoop (fuel + 1) (wUint32 34 ++ (wBytes b ++ rest)) acc =
      decodeChatLoop fuel rest { acc with instructions := some i } := by
  rw [decodeChatLoop]
  rw [if_neg (append_ne_nil_of_left _ (wUint32_ne_nil 34))]
  rw [readUint32_wUint32 34 (by norm_num) _]
  dsimp only
  norm_num
  rw [readBytesP_wBytes b rest hb]
  dsimp only
  rw [hdec]

theorem decodeChatLoop_step_path (fuel : Nat) (s : String) (rest : List Nat)
    (acc : ChatMessageReq) (h : (utf8Encode s).length < 4294967296) :
    decodeChatLoop (fuel + 1) (wUint32 42 ++ (wString s ++ rest)) acc =
      decodeChatLoop fuel rest { acc with projectPath := some s } := by
  rw [decodeChatLoop]
  rw [if_neg (append_ne_nil_of_left _ (wUint32_ne_nil 42))]
  rw [readUint32_wUint32 42 (by norm_num) _]
  dsimp only
  norm_num
  rw [readStringP_wString s rest h]

theorem decodeChatLoop_step_model (fuel : Nat) (b : List Nat) (rest : List Nat)
    (acc : ChatMessageReq) (md : ModelInfo) (hb : b.length < 4294967296)
    (hdec : decodeModel b = some md) :
    decodeChatLoop (fuel + 1) (wUint32 58 ++ (wBytes b ++ rest)) acc =
      decodeChatLoop fuel rest { acc with model := some md } := by
  rw [decodeChatLoop]
  rw [if_neg (append_ne_nil_of_left _ (wUint32_ne_nil 58))]
  rw [readUint32_wUint32 58 (by norm_num) _]
  dsimp only
  norm_num
  rw [readBytesP_wBytes b rest hb]
  dsimp only
  rw [hdec]

theorem decodeChatLoop_step_reqId (fuel : Nat) (s : String) (rest : List Nat)
    (acc : ChatMessageReq) (h : (utf8Encode s).length < 4294967296) :
    decodeChatLoop (fuel + 1) (wUint32 74 ++ (wString s ++ rest)) acc =
      decodeChatLoop fuel rest { acc with requestId := some s } := by
  rw [decodeChatLoop]
  rw [if_neg (append_ne_nil_of_left _ (wUint32_ne_nil 74))]
  rw [readUint32_wUint32 74 (by norm_num) _]
  dsimp only
  norm_num
  rw [readStringP_wString s rest h]

theorem decodeChatLoop_step_summary (fuel : Nat) (s : String) (rest : List Nat)
    (acc : ChatMessageReq) (h : (utf8Encode s).length < 4294967296) :
    decodeChatLoop (fuel + 1) (wUint32 90 ++ (wString s ++ rest)) acc =
      decodeChatLoop fuel rest { acc with summary := some s } := by
  rw [decodeChatLoop]
  rw [if_neg (append_ne_nil_of_left _ (wUint32_ne_nil 90))]
  rw [readUint32_wUint32 90 (by norm_num) _]
  dsimp only
  norm_num
  rw [readStringP_wString s rest h]

theorem decodeChatLoop_step_convId (fuel : Nat) (s : String) (rest : List Nat)
    (acc : ChatMessageReq) (h : (utf8Encode s).length < 4294967296) :
    decodeChatLoop (fuel + 1) (wUint32 122 ++ (wString s ++ rest)) acc =
      decodeChatLoop fuel rest { acc with conversationId := some s } := by
  rw [decodeChatLoop]
  rw [if_neg (append_ne_nil_of_left _ (wUint32_ne_nil 122))]
  rw [readUint32_wUint32 122 (by norm_num) _]
  dsimp only
  norm_num
  rw [readStringP_wString s rest h]

theorem decodeChatLoop_nil (fuel : Nat) (acc : ChatMessageReq) :
    decodeChatLoop (fuel + 1) [] acc = some acc := by
  rw [decodeChatLoop]
  rw [if_pos rfl]

theorem decodeInstrLoop_nil (fuel : Nat) (acc : Instructions) :
    decodeInstrLoop (fuel + 1) [] acc = some acc := by
  rw [decodeInstrLoop]
  rw [if_pos rfl]

theorem decodeModelLoop_nil (fuel : Nat) (acc : ModelInfo) :
    decodeModelLoop (fuel + 1) [] acc = some acc := by
  rw [decodeModelLoop]
  rw [if_pos rfl]

theorem decodeInstructions_encode (s : String) (h : (utf8Encode s).length < 4294967296) :
    decodeInstructions (encodeInstructions ⟨some s⟩) = some ⟨some s⟩ := by
  have henc : encodeInstructions ⟨some s⟩ = wUint32 10 ++ (wString s ++ []) := by
    simp [encodeInstructions, optField]
  rw [decodeInstructions, henc]
  have h1 : 1 ≤ (wUint32 10).length := List.length_pos.mpr (wUint32_ne_nil 10)
  obtain ⟨g, hg⟩ : ∃ g, (wUint32 10 ++ (wString s ++ [])).length + 1 = g + 2 := by
    refine ⟨(wUint32 10 ++ (wString s ++ [])).length - 1, ?_⟩
    simp only [List.length_append]
    omega
  rw [hg]
  have hstep : ∀ fuel acc, decodeInstrLoop (fuel + 1) (wUint32 10 ++ (wString s ++ [])) acc =
      decodeInstrLoop fuel [] { acc with instruction := some s } := by
    intro fuel acc
    rw [decodeInstrLoop]
    rw [if_neg (append_ne_nil_of_left _ (wUint32_ne_nil 10))]
    rw [readUint32_wUint32 10 (by norm_num) _]
    dsimp only
    norm_num
    rw [readStringP_wString_nil s h]
  show decodeInstrLoop (g + 1 + 1) _ _ = _
  rw [hstep (g + 1) ⟨none⟩, decodeInstrLoop_nil]

theorem decodeModel_encode (nm em : String) (hn : (utf8Encode nm).length < 4294967296)
    (he : (utf8Encode em).length < 4294967296) :
    decodeModel (encodeModel ⟨some nm, some em⟩) = some ⟨some nm, some em⟩ := by
  have henc : encodeModel ⟨some nm, some em⟩ =
      wUint32 10 ++ (wString nm ++ (wUint32 34 ++ (wString em ++ []))) := by
    simp [encodeModel, optField]
  rw [decodeModel, henc]
  have h1 : 1 ≤ (wUint32 10).length := List.length_pos.mpr (wUint32_ne_nil 10)
  have h2 : 1 ≤ (wUint32 34).length := List.length_pos.mpr (wUint32_ne_nil 34)
  obtain ⟨g, hg⟩ : ∃ g,
      (wUint32 10 ++ (wString nm ++ (wUint32 34 ++ (wString em ++ [])))).length + 1 = g + 3 := by
    refine ⟨(wUint32 10 ++ (wString nm ++ (wUint32 34 ++ (wString em ++ [])))).length - 2, ?_⟩
    simp only [List.length_append]
    omega
  rw [hg]
  have hstep1 : ∀ fuel acc rest,
      decodeModelLoop (fuel + 1) (wUint32 10 ++ (wString nm ++ rest)) acc =
      decodeModelLoop fuel rest { acc with name := some nm } := by
    intro fuel acc rest
    rw [decodeModelLoop]
    rw [if_neg (append_ne_nil_of_left _ (wUint32_ne_nil 10))]
    rw [readUint32_wUint32 10 (by norm_num) _]
    dsimp only
    norm_num
    rw [readStringP_wString nm rest hn]
  have hstep2 : ∀ fuel acc,
      decodeModelLoop (fuel + 1) (wUint32 34 ++ (wString em ++ [])) acc =
      decodeModelLoop fuel [] { acc with empty := some em } := by
    intro fuel acc
    rw [decodeModelLoop]
    rw [if_neg (append_ne_nil_of_left _ (wUint32_ne_nil 34))]
    rw [readUint32_wUint32 34 (by norm_num) _]
    dsimp only
    norm_num
    rw [readStringP_wString_nil em he]
  show decodeModelLoop (g + 2 + 1) _ _ = _
  rw [hstep1 (g + 2) _ _]
  show decodeModelLoop (g + 1 + 1) _ _ = _
  rw [hstep2 (g + 1) _]
  rw [decodeModelLoop_nil]

theorem decodeUserMessage_nil : decodeUserMessage [] = some ⟨none, none, none⟩ :=
  decodeUserLoop_nil 0 _

theorem convertMessages_mem (msgs : List ChatMsg) (ids : Nat → String) : ∀ i,
    ∀ m ∈ convertMessages msgs i ids, ∃ cm j, cm ∈ msgs ∧
      m = ⟨some cm.content, some (if cm.role = "user" then 1 else 2), some (ids j)⟩ := by
  induction msgs with
  | nil => intro i m hm; simp [convertMessages] at hm
  | cons cm msgs ih =>
      intro i m hm
      rw [convertMessages] at hm
      rcases List.mem_cons.mp hm with h | h
      · exact ⟨cm, i, by simp, h⟩
      · rcases ih (i + 1) m h with ⟨cm2, j, hcm2, hm2⟩
        exact ⟨cm2, j, by simp [hcm2], hm2⟩

theorem convertMessages_content (msgs : List ChatMsg) (ids : Nat → String) : ∀ i,
    (convertMessages msgs i ids).map (·.content) = msgs.map (fun m => some m.content) := by
  induction msgs with
  | nil => intro i; rfl
  | cons cm msgs ih =>
      intro i
      rw [convertMessages, List.map_cons, List.map_cons, ih (i + 1)]

theorem convertMessages_role (msgs : List ChatMsg) (ids : Nat → String) : ∀ i,
    (convertMessages msgs i ids).map (·.role) =
      msgs.map (fun m => some (if m.role = "user" then 1 else 2)) := by
  induction msgs with
  | nil => intro i; rfl
  | cons cm msgs ih =>
      intro i
      rw [convertMessages, List.map_cons, List.map_cons, ih (i + 1)]

/-- Step the empty `fork().ldelim()` placeholder entry (tag `0x12`, zero
length) through the top-level mirror loop: it decodes as an empty
message. -/
theorem decodeChatLoop_step_placeholder (fuel : Nat) (rest : List Nat) (acc : ChatMessageReq) :
    decodeChatLoop (fuel + 1) (wUint32 18 ++ (wUint32 0 ++ rest)) acc =
      decodeChatLoop fuel rest { acc with messages := acc.messages ++ [⟨none, none, none⟩] } := by
  have h := decodeChatLoop_step_msg fuel [] rest acc ⟨none, none, none⟩ (by simp)
    decodeUserMessage_nil
  have hw : wBytes ([] : List Nat) ++ rest = wUint32 0 ++ rest := by simp [wBytes]
  rwa [hw] at h

/-- Decode the repeated-message section of the encoder output: each source
message contributes the empty placeholder entry (from `fork().ldelim()`)
and then the real entry. -/
theorem decodeChatLoop_msgs : ∀ (ms : List UserMessage) (fuel : Nat) (rest : List Nat)
    (acc : ChatMessageReq),
    (∀ m ∈ ms, ∃ c r id, m = (⟨some c, some r, some id⟩ : UserMessage) ∧
      (utf8Encode c).length < 268435456 ∧ (utf8Encode id).length < 268435456 ∧
      r < 4294967296) →
    decodeChatLoop (fuel + 2 * ms.length)
      ((ms.flatMap fun msg => wUint32 18 ++ wUint32 0 ++ wUint32 18 ++
        wBytes (encodeUserMessage msg)) ++ rest) acc =
    decodeChatLoop fuel rest
      { acc with messages := acc.messages ++ ms.flatMap (fun m => [⟨none, none, none⟩, m]) } := by
  intro ms
  induction ms with
  | nil =>
      intro fuel rest acc _
      simp [List.flatMap_nil]
  | cons m ms ih =>
      intro fuel rest acc hms
      rcases hms m (by simp) with ⟨c, r, id, rfl, hc, hid, hr⟩
      rw [List.flatMap_cons]
      simp only [List.length_cons]
      rw [List.append_assoc, List.append_assoc, List.append_assoc, List.append_assoc]
      have harr : fuel + 2 * (ms.length + 1) = (fuel + 2 * ms.length + 1) + 1 := by omega
      rw [harr]
      rw [decodeChatLoop_step_placeholder]
      rw [decodeChatLoop_step_msg _ _ _ _ ⟨some c, some r, some id⟩
        (encodeUserMessage_conv_length_lt c id r hc hid)
        (decodeUserMessage_encode c id r (by omega) (by omega) hr)]
      rw [ih (fuel) rest _ (fun m hm => hms m (by simp [hm]))]
      simp only [List.flatMap_cons, List.append_assoc, List.cons_append, List.nil_append]

theorem flatMap_block_length_ge (ms : List UserMessage) :
    2 * ms.length ≤ (ms.flatMap fun msg => wUint32 18 ++ wUint32 0 ++ wUint32 18 ++
      wBytes (encodeUserMessage msg)).length := by
  induction ms with
  | nil => simp
  | cons m ms ih =>
      rw [List.flatMap_cons]
      simp only [List.length_append, List.length_cons]
      have h1 : 1 ≤ (wUint32 18).length := List.length_pos.mpr (wUint32_ne_nil 18)
      have h2 : 1 ≤ (wUint32 0).length := List.length_pos.mpr (wUint32_ne_nil 0)
      omega

theorem utf8EncodeChar_length_le (c : Char) : (utf8EncodeChar c).length ≤ 4 := by
  rw [utf8EncodeChar]
  split
  · simp
  · split
    · simp
    · split <;> simp

theorem utf8Encode_length_le (s : String) : (utf8Encode s).length ≤ 4 * s.data.length := by
  rw [utf8Encode]
  induction s.data with
  | nil => simp
  | cons c l ih =>
      rw [List.flatMap_cons]
      simp only [List.length_append, List.length_cons]
      have := utf8EncodeChar_length_le c
      omega

/-- Mirror decode of the full encoder output for a converted request: the
messages come back interleaved with one empty placeholder per message, and
every other field round-trips exactly. -/
theorem decodeChatMessage_encode (messages : List ChatMsg) (modelName : String)
    (ids : Nat → String) (reqId convId : String)
    (hc : ∀ m ∈ messages, (utf8Encode m.content).length < 268435456)
    (hids : ∀ j, (utf8Encode (ids j)).length < 268435456)
    (hm : (utf8Encode modelName).length < 268435456)
    (hreq : (utf8Encode reqId).length < 4294967296)
    (hconv : (utf8Encode convId).length < 4294967296) :
    decodeChatMessage
      (encodeChatMessage (convertToCursorFormat messages modelName ids reqId convId)) =
    some ⟨(convertMessages messages 0 ids).flatMap (fun m => [⟨none, none, none⟩, m]),
      some ⟨some "Always respond in the user's preferred language"⟩,
      some "/cursor-sdk-project", some ⟨some modelName, some ""⟩,
      some reqId, some "", some convId⟩ := by
  have hinstrSmall : (utf8Encode "Always respond in the user's preferred language").length
      ≤ 188 :=
    le_trans (utf8Encode_length_le _) (by decide)
  have hempty0 : (utf8Encode "").length = 0 := rfl
  have hinstrLen : (utf8Encode "Always respond in the user's preferred language").length
      < 4294967296 := by omega
  have hpathLen : (utf8Encode "/cursor-sdk-project").length < 4294967296 :=
    lt_of_le_of_lt (utf8Encode_length_le _) (by decide)
  have hemptyLen : (utf8Encode "").length < 4294967296 :=
    lt_of_le_of_lt (utf8Encode_length_le _) (by decide)
  have hbI : (encodeInstructions ⟨some "Always respond in the user's preferred language"⟩).length
      < 4294967296 := by
    have he : encodeInstructions ⟨some "Always respond in the user's preferred language"⟩ =
        wUint32 10 ++ wString "Always respond in the user's preferred language" := by
      simp [encodeInstructions, optField]
    rw [he]
    simp only [List.length_append]
    have := wUint32_length_le 10
    have := wString_length_le "Always respond in the user's preferred language"
    omega
  have hbM : (encodeModel ⟨some modelName, some ""⟩).length < 4294967296 := by
    have he : encodeModel ⟨some modelName, some ""⟩ =
        wUint32 10 ++ wString modelName ++ (wUint32 34 ++ wString "") := by
      simp [encodeModel, optField]
    rw [he]
    simp only [List.length_append]
    have := wUint32_length_le 10
    have := wUint32_length_le 34
    have := wString_length_le modelName
    have := wString_length_le ""
    omega
  have henc : encodeChatMessage (convertToCursorFormat messages modelName ids reqId convId) =
      ((convertMessages messages 0 ids).flatMap fun msg =>
        wUint32 18 ++ wUint32 0 ++ wUint32 18 ++ wBytes (encodeUserMessage msg)) ++
      (wUint32 34 ++ (wBytes (encodeInstructions
          ⟨some "Always respond in the user's preferred language"⟩) ++
        (wUint32 42 ++ (wString "/cursor-sdk-project" ++
        (wUint32 58 ++ (wBytes (encodeModel ⟨some modelName, some ""⟩) ++
        (wUint32 74 ++ (wString reqId ++
        (wUint32 90 ++ (wString "" ++
        (wUint32 122 ++ (wString convId ++ [])))))))))))) := by
    simp [encodeChatMessage, convertToCursorFormat, optField]
  rw [decodeChatMessage, henc]
  set N := convertMessages messages 0 ids with hN
  set FLAT := (N.flatMap fun msg =>
    wUint32 18 ++ wUint32 0 ++ wUint32 18 ++ wBytes (encodeUserMessage msg)) with hFLAT
  set REST := (wUint32 34 ++ (wBytes (encodeInstructions
      ⟨some "Always respond in the user's preferred language"⟩) ++
    (wUint32 42 ++ (wString "/cursor-sdk-project" ++
    (wUint32 58 ++ (wBytes (encodeModel ⟨some modelName, some ""⟩) ++
    (wUint32 74 ++ (wString reqId ++
    (wUint32 90 ++ (wString "" ++
    (wUint32 122 ++ (wString convId ++ [])))))))))))) with hREST
  have hflatlen : 2 * N.length ≤ FLAT.length := by
    rw [hFLAT]
    exact flatMap_block_length_ge N
  have hrestlen : 6 ≤ REST.length := by
    rw [hREST]
    simp only [List.length_append]
    have h34 : 1 ≤ (wUint32 34).length := List.length_pos.mpr (wUint32_ne_nil 34)
    have h42 : 1 ≤ (wUint32 42).length := List.length_pos.mpr (wUint32_ne_nil 42)
    have h58 : 1 ≤ (wUint32 58).length := List.length_pos.mpr (wUint32_ne_nil 58)
    have h74 : 1 ≤ (wUint32 74).length := List.length_pos.mpr (wUint32_ne_nil 74)
    have h90 : 1 ≤ (wUint32 90).length := List.length_pos.mpr (wUint32_ne_nil 90)
    have h122 : 1 ≤ (wUint32 122).length := List.length_pos.mpr (wUint32_ne_nil 122)
    omega
  obtain ⟨g, hg⟩ : ∃ g, (FLAT ++ REST).length + 1 = (g + 7) + 2 * N.length := by
    refine ⟨(FLAT ++ REST).length + 1 - (7 + 2 * N.length), ?_⟩
    simp only [List.length_append]
    omega
  rw [hg]
  have hshape : ∀ m ∈ N, ∃ c r id, m = (⟨some c, some r, some id⟩ : UserMessage) ∧
      (utf8Encode c).length < 268435456 ∧ (utf8Encode id).length < 268435456 ∧
      r < 4294967296 := by
    intro m hmem
    rcases convertMessages_mem messages ids 0 m hmem with ⟨cm, j, hcm, rfl⟩
    refine ⟨cm.content, _, ids j, rfl, hc cm hcm, hids j, ?_⟩
    split <;> norm_num
  rw [decodeChatLoop_msgs N (g + 7) REST _ hshape]
  simp only [List.nil_append]
  rw [hREST]
  show decodeChatLoop (g + 6 + 1) _ _ = _
  rw [decodeChatLoop_step_instr _ _ _ _ ⟨some "Always respond in the user's preferred language"⟩
    hbI (decodeInstructions_encode _ hinstrLen)]
  show decodeChatLoop (g + 5 + 1) _ _ = _
  rw [decodeChatLoop_step_path _ _ _ _ hpathLen]
  show decodeChatLoop (g + 4 + 1) _ _ = _
  rw [decodeChatLoop_step_model _ _ _ _ ⟨some modelName, some ""⟩ hbM
    (decodeModel_encode modelName "" (by omega) hemptyLen)]
  show decodeChatLoop (g + 3 + 1) _ _ = _
  rw [decodeChatLoop_step_reqId _ _ _ _ hreq]
  show decodeChatLoop (g + 2 + 1) _ _ = _
  rw [decodeChatLoop_step_summary _ _ _ _ hemptyLen]
  show decodeChatLoop (g + 1 + 1) _ _ = _
  rw [decodeChatLoop_step_convId _ _ _ _ hconv]
  rw [decodeChatLoop_nil]

/-! ## Occurrence lemmas for the marker-stripping functions -/

theorem dropAfterOcc?_isSome_iff (p0 : Char) (prest : List Char) :
    ∀ l : List Char, (dropAfterOcc? (p0 :: prest) l).isSome ↔ (p0 :: prest) <:+: l := by
  intro l
  induction l with
  | nil =>
      simp only [dropAfterOcc?, Option.isSome_none, Bool.false_eq_true, false_iff]
      intro h
      have := h.length_le
      simp at this
  | cons a l ih =>
      rw [dropAfterOcc?]
      by_cases hpre : (p0 :: prest).isPrefixOf (a :: l)
      · rw [if_pos hpre]
        simp only [Option.isSome_some, true_iff]
        exact (List.isPrefixOf_iff_prefix.mp hpre).isInfix
      · rw [if_neg hpre]
        rw [ih]
        constructor
        · exact fun h => List.infix_cons h
        · intro h
          rcases List.infix_cons_iff.mp h with h2 | h2
          · exact absurd (List.isPrefixOf_iff_prefix.mpr h2) hpre
          · exact h2

theorem dropAfterOcc?_isSuffix (pat : List Char) :
    ∀ l r : List Char, dropAfterOcc? pat l = some r → r <:+ l := by
  intro l
  induction l with
  | nil => intro r h; simp [dropAfterOcc?] at h
  | cons a l ih =>
      intro r h
      rw [dropAfterOcc?] at h
      split at h
      · cases h
        exact List.drop_suffix _ _
      · exact (ih r h).trans (List.suffix_cons a l)

theorem afterLastMarker_not_infixOf (p0 : Char) (prest : List Char) :
    ∀ l : List Char, ¬((p0 :: prest) <:+: afterLastMarker p0 prest l) := by
  intro l
  induction l using afterLastMarker.induct p0 prest with
  | case1 l hocc =>
      rw [afterLastMarker, hocc]
      intro hinf
      have := (dropAfterOcc?_isSome_iff p0 prest l).mpr hinf
      rw [hocc] at this
      simp at this
  | case2 l r hocc ih =>
      rw [afterLastMarker, hocc]
      exact ih

theorem afterLastMarker_eq_self (p0 : Char) (prest : List Char) (l : List Char)
    (h : ¬((p0 :: prest) <:+: l)) : afterLastMarker p0 prest l = l := by
  rw [afterLastMarker]
  have : dropAfterOcc? (p0 :: prest) l = none := by
    rcases hcase : dropAfterOcc? (p0 :: prest) l with _ | r
    · rfl
    · exact absurd ((dropAfterOcc?_isSome_iff p0 prest l).mp (by rw [hcase]; rfl)) h
  rw [this]

/-- A pattern with no proper border: no occurrence can overlap another.
`decide`-checkable for the concrete markers. -/
def borderFree (pat : List Char) : Prop :=
  ∀ k, k < pat.length → 0 < k → pat.drop k ≠ pat.take (pat.length - k)

theorem dropAfterOcc?_append_self (pat : List Char) (post : List Char)
    (hne : pat ≠ []) :
    dropAfterOcc? pat (pat ++ post) = some post := by
  match pat, hne with
  | p0 :: prest, _ =>
      rw [List.cons_append, dropAfterOcc?]
      rw [if_pos (List.isPrefixOf_iff_prefix.mpr (by
        rw [← List.cons_append]
        exact List.prefix_append _ _))]
      rw [← List.cons_append, List.drop_left]

/-- The last-occurrence cut through an explicit decomposition: when the
pattern is border-free and does not occur in `post`, stripping through the
last occurrence of `pat` in `pre ++ pat ++ post` yields exactly `post`. -/
theorem afterLastMarker_append (p0 : Char) (prest : List Char)
    (hbf : borderFree (p0 :: prest)) :
    ∀ pre post : List Char, ¬((p0 :: prest) <:+: post) →
      afterLastMarker p0 prest (pre ++ (p0 :: prest) ++ post) = post := by
  suffices H : ∀ n (pre : List Char), pre.length ≤ n → ∀ post : List Char,
      ¬((p0 :: prest) <:+: post) →
      afterLastMarker p0 prest (pre ++ (p0 :: prest) ++ post) = post by
    exact fun pre post h => H pre.length pre le_rfl post h
  intro n
  induction n using Nat.strong_induction_on with
  | _ n ih =>
      intro pre hlen post hpost
      match pre with
      | [] =>
          rw [List.nil_append]
          rw [afterLastMarker]
          rw [dropAfterOcc?_append_self _ _ (by simp)]
          exact afterLastMarker_eq_self p0 prest post hpost
      | a :: pre2 =>
          have hT : (a :: pre2) ++ (p0 :: prest) ++ post =
              a :: (pre2 ++ (p0 :: prest) ++ post) := by simp
          rw [hT]
          set T := pre2 ++ (p0 :: prest) ++ post with hTdef
          have hTocc : (p0 :: prest) <:+: T := by
            rw [hTdef]
            exact ⟨pre2, post, by simp⟩
          have hTsome : ∃ r, dropAfterOcc? (p0 :: prest) T = some r := by
            have := (dropAfterOcc?_isSome_iff p0 prest T).mpr hTocc
            exact Option.isSome_iff_exists.mp this
          rcases hTsome with ⟨r, hr⟩
          have hn1 : 1 ≤ n := by
            simp only [List.length_cons] at hlen
            omega
          have hATtail : afterLastMarker p0 prest T = post := by
            have := ih (n - 1) (by omega) pre2 (by
              simp only [List.length_cons] at hlen
              omega) post hpost
            exact this
          by_cases hpre : (p0 :: prest).isPrefixOf (a :: T)
          · -- an occurrence at position 0 of `a :: T`
            rw [afterLastMarker]
            rw [dropAfterOcc?]
            rw [if_pos hpre]
            by_cases hsplit : (p0 :: prest).length ≤ (a :: pre2).length
            · -- the occurrence sits wholly inside `a :: pre2 ++ …`
              have hdrop : (a :: T).drop (p0 :: prest).length =
                  ((a :: pre2).drop (p0 :: prest).length) ++ (p0 :: prest) ++ post := by
                have : a :: T = ((a :: pre2) ++ (p0 :: prest)) ++ post := by
                  rw [hTdef]; simp
                rw [this]
                rw [List.drop_append_of_le_length (by
                  simp only [List.length_append]
                  omega)]
                rw [List.drop_append_of_le_length hsplit]
              rw [hdrop]
              have hlen2 : ((a :: pre2).drop (p0 :: prest).length).length ≤ n - 1 := by
                simp only [List.length_drop, List.length_cons] at *
                omega
              exact ih (n - 1) (by omega) _ hlen2 post hpost
            · -- the occurrence would overlap the known one: border contradiction
              exfalso
              have hm : (a :: pre2).length < (p0 :: prest).length := by omega
              have htake := List.isPrefixOf_iff_prefix.mp hpre
              have heq : p0 :: prest = ((a :: pre2) ++
                  (p0 :: prest).take ((p0 :: prest).length - (a :: pre2).length)) := by
                have h1 : p0 :: prest = (a :: T).take (p0 :: prest).length := by
                  rcases htake with ⟨t, ht⟩
                  rw [← ht]
                  rw [List.take_left]
                have h2 : a :: T = (a :: pre2) ++ ((p0 :: prest) ++ post) := by
                  rw [hTdef]; simp
                rw [h2] at h1
                rw [List.take_append_eq_append_take] at h1
                rw [List.take_of_length_le (by
                  simp only [List.length_cons] at *
                  omega)] at h1
                rw [List.take_append_of_le_length (by
                  simp only [List.length_cons] at *
                  omega)] at h1
                exact h1
              have hborder := hbf (a :: pre2).length (by omega) (by simp)
              apply hborder
              conv_lhs => rw [heq]
              exact List.drop_left _ _
          · -- no occurrence at position 0: both sides step to the same tail
            rw [afterLastMarker]
            rw [dropAfterOcc?]
            rw [if_neg hpre, hr]
            rw [afterLastMarker, hr] at hATtail
            exact hATtail

/-! ## Trim and strip inventory lemmas -/

theorem dropWhile_head_false {p : Char → Bool} {a : Char} {t : List Char} :
    ∀ {l : List Char}, l.dropWhile p = a :: t → p a = false := by
  intro l
  induction l with
  | nil => intro h; simp [List.dropWhile] at h
  | cons b l ih =>
      intro h
      rw [List.dropWhile_cons] at h
      by_cases hb : p b
      · rw [if_pos hb] at h
        exact ih h
      · rw [if_neg hb] at h
        cases h
        simpa using hb

theorem dropWhile_idem (p : Char → Bool) (l : List Char) :
    (l.dropWhile p).dropWhile p = l.dropWhile p := by
  rcases h : l.dropWhile p with _ | ⟨a, t⟩
  · rfl
  · rw [List.dropWhile_cons, dropWhile_head_false h]
    simp

theorem dropTrailWS_reverse (y : List Char) :
    (dropTrailWS y).reverse = y.reverse.dropWhile isJsWhitespace := by
  simp [dropTrailWS]

theorem dropTrailWS_idem (y : List Char) : dropTrailWS (dropTrailWS y) = dropTrailWS y := by
  have h : (dropTrailWS (dropTrailWS y)).reverse = (dropTrailWS y).reverse := by
    rw [dropTrailWS_reverse, dropTrailWS_reverse, dropWhile_idem]
  exact List.reverse_injective h

theorem dropTrailWS_isPre (y : List Char) : dropTrailWS y <+: y := by
  have h := List.dropWhile_suffix (l := y.reverse) isJsWhitespace
  have h2 := List.reverse_prefix.mpr h
  rwa [List.reverse_reverse] at h2

theorem jsTrimL_dropWhile (l : List Char) :
    (jsTrimL l).dropWhile isJsWhitespace = jsTrimL l := by
  rw [jsTrimL]
  rcases h : dropTrailWS (l.dropWhile isJsWhitespace) with _ | ⟨a, t⟩
  · rfl
  · have hpre := dropTrailWS_isPre (l.dropWhile isJsWhitespace)
    rw [h] at hpre
    rcases hpre with ⟨rest, hrest⟩
    have hfalse : isJsWhitespace a = false := by
      apply dropWhile_head_false (l := l) (t := t ++ rest)
      rw [← hrest]
      simp
    rw [List.dropWhile_cons, hfalse]
    simp

theorem dropTrailWS_jsTrimL (l : List Char) : dropTrailWS (jsTrimL l) = jsTrimL l := by
  rw [jsTrimL, dropTrailWS_idem]

theorem jsTrimL_idem (l : List Char) : jsTrimL (jsTrimL l) = jsTrimL l := by
  conv_lhs => rw [jsTrimL, jsTrimL_dropWhile]
  exact dropTrailWS_jsTrimL l

theorem jsTrimL_cons_ws (a : Char) (l : List Char) (ha : isJsWhitespace a = true) :
    jsTrimL (a :: l) = jsTrimL l := by
  rw [jsTrimL, jsTrimL, List.dropWhile_cons, ha]
  simp

theorem jsTrimL_infixOf (l : List Char) : jsTrimL l <:+: l := by
  rw [jsTrimL]
  exact (dropTrailWS_isPre _).isInfix.trans (List.dropWhile_suffix _).isInfix

theorem stripLeadNL_isSuf (l : List Char) : stripLeadNL l <:+ l := by
  rw [stripLeadNL.eq_def]
  match l with
  | [] => exact List.suffix_refl _
  | a :: t =>
      dsimp only
      split
      · match t with
        | [] => exact List.nil_suffix
        | c :: l2 =>
            dsimp only
            split
            · exact (List.suffix_cons c l2).trans (List.suffix_cons a (c :: l2))
            · exact List.suffix_cons a (c :: l2)
      · exact List.suffix_refl _

theorem stripTrailBraces_infixOf (l : List Char) : stripTrailBraces l <:+: l := by
  rw [stripTrailBraces.eq_def]
  split
  · rename_i r2 heq
    have h1 : r2 <:+ l.reverse := by
      have h2 : l.reverse.dropWhile isJsWhitespace <:+ l.reverse := List.dropWhile_suffix _
      rw [heq] at h2
      exact (List.suffix_cons _ _).trans ((List.suffix_cons _ _).trans h2)
    have h3 : r2.dropWhile isJsWhitespace <:+ l.reverse := (List.dropWhile_suffix _).trans h1
    have h4 := List.reverse_prefix.mpr h3
    rw [List.reverse_reverse] at h4
    exact h4.isInfix
  · exact List.infix_refl _

theorem scaffoldTest_infixOf (l : List Char) (h : scaffoldTest l = true) :
    ('<' :: "|END_USER|>".data) <:+: l := by
  rw [scaffoldTest] at h
  rcases h1 : dropAfterOcc? beginSystemMarker l with _ | r1
  · rw [h1] at h; simp at h
  rw [h1] at h
  simp only [Option.some_bind] at h
  rcases h2 : dropAfterOcc? endSystemMarker r1 with _ | r2
  · rw [h2] at h; simp at h
  rw [h2] at h
  simp only [Option.some_bind] at h
  rcases h3 : dropAfterOcc? beginUserMarker r2 with _ | r3
  · rw [h3] at h; simp at h
  rw [h3] at h
  simp only [Option.some_bind] at h
  have h4 : (endUserMarker : List Char) <:+: r3 := by
    have hc : (endUserMarker : List Char) = '<' :: "|END_USER|>".data := rfl
    rw [hc]
    exact (dropAfterOcc?_isSome_iff '<' "|END_USER|>".data r3).mp (by
      rw [← hc]; exact h)
  have s3 : r3 <:+ r2 := dropAfterOcc?_isSuffix _ r2 r3 h3
  have s2 : r2 <:+ r1 := dropAfterOcc?_isSuffix _ r1 r2 h2
  have s1 : r1 <:+ l := dropAfterOcc?_isSuffix _ l r1 h1
  have : (endUserMarker : List Char) <:+: l :=
    ((h4.trans s3.isInfix).trans s2.isInfix).trans s1.isInfix
  exact this

theorem dropWhile_eq_self_head {p : Char → Bool} {a : Char} {t : List Char}
    (h : (a :: t).dropWhile p = a :: t) : p a = false := by
  rw [List.dropWhile_cons] at h
  by_cases hb : p a
  · rw [if_pos hb] at h
    have hsub := (List.dropWhile_sublist (l := t) p).length_le
    have hlen := congrArg List.length h
    simp only [List.length_cons] at hlen
    omega
  · simpa using hb

/-- The two early-return branches of `cleanResponseText`, or the main
path with its marker-free tail exposed. -/
theorem cleanResponseText_shape (s : String) :
    cleanResponseText s = "" ∨
    ((cleanResponseText s).data =
        jsTrimL (stripTrailBraces (jsTrimL (stripLeadNL
          (afterLastMarker '<' "|END_USER|>".data s.data)))) ∧
      ¬(('<' :: "|END_USER|>".data) <:+:
          afterLastMarker '<' "|END_USER|>".data s.data)) := by
  rw [cleanResponseText]
  split
  · left; rfl
  · split
    · left; rfl
    · right
      exact ⟨rfl, afterLastMarker_not_infixOf _ _ _⟩

theorem cleanResponseText_empty : cleanResponseText "" = "" := by decide

/-- Text that is trimmed, free of the `<|END_USER|>` marker, and does not
end in `\x7b\x7d` is a fixed point of the streaming cleaner. -/
theorem cleanResponseText_fixed (t : String)
    (htrim : jsTrimL t.data = t.data)
    (hnoEU : ¬(('<' :: "|END_USER|>".data) <:+: t.data))
    (hnb : ¬("{}".data <:+ t.data)) :
    cleanResponseText t = t := by
  have hdw : t.data.dropWhile isJsWhitespace = t.data := by
    have := jsTrimL_dropWhile t.data
    rwa [htrim] at this
  have hdt : dropTrailWS t.data = t.data := by
    have := dropTrailWS_jsTrimL t.data
    rwa [htrim] at this
  have hrevdw : t.data.reverse.dropWhile isJsWhitespace = t.data.reverse := by
    have := congrArg List.reverse hdt
    rwa [dropTrailWS_reverse] at this
  have hstb : stripTrailBraces t.data = t.data := by
    rw [stripTrailBraces.eq_def, hrevdw]
    split
    · rename_i r2 heq
      exfalso
      apply hnb
      refine ⟨r2.reverse, ?_⟩
      have := congrArg List.reverse heq
      rw [List.reverse_reverse] at this
      rw [this]
      simp
    · rfl
  by_cases hnil : t.data = []
  · have ht : t = "" := String.ext (by rw [hnil])
    rw [ht, cleanResponseText_empty]
  have hne2 : t.data ≠ "{}".data := by
    intro hcontra
    exact hnb (hcontra ▸ List.suffix_refl _)
  have hscaffold : scaffoldTest t.data = false := by
    by_contra hcontra
    exact hnoEU (scaffoldTest_infixOf t.data (by simpa using hcontra))
  have hslnl : stripLeadNL t.data = t.data := by
    rcases hdata : t.data with _ | ⟨a, rest⟩
    · rfl
    · have hws : isJsWhitespace a = false := dropWhile_eq_self_head (by rw [← hdata, hdw, hdata])
      have hanl : a ≠ '\n' := by
        intro hcontra
        rw [hcontra] at hws
        simp [isJsWhitespace] at hws
      rw [stripLeadNL.eq_def]
      dsimp only
      rw [if_neg hanl]
  rw [cleanResponseText]
  rw [if_neg (by
    rw [htrim]
    push_neg
    exact ⟨hne2, hnil⟩)]
  rw [if_neg (by simp [hscaffold])]
  rw [afterLastMarker_eq_self _ _ _ hnoEU, hslnl, htrim, hstb, htrim]

/-- The streaming cleaner never leaves the `<|END_USER|>` marker in its
output, and its output is always trimmed. -/
theorem cleanResponseText_output (x : String) :
    cleanResponseText x = "" ∨
    (jsTrimL (cleanResponseText x).data = (cleanResponseText x).data ∧
      ¬(('<' :: "|END_USER|>".data) <:+: (cleanResponseText x).data)) := by
  rcases cleanResponseText_shape x with h | ⟨hdata, hno⟩
  · left; exact h
  · right
    constructor
    · rw [hdata, jsTrimL_idem]
    · intro hcontra
      apply hno
      have hinf : (cleanResponseText x).data <:+:
          afterLastMarker '<' "|END_USER|>".data x.data := by
        rw [hdata]
        exact (jsTrimL_infixOf _).trans ((stripTrailBraces_infixOf _).trans
          ((jsTrimL_infixOf _).trans (stripLeadNL_isSuf _).isInfix))
      exact hcontra.trans hinf

theorem asciiLetter_not_ws {c : Char} (h : isAsciiLetter c = true) :
    isJsWhitespace c = false := by
  simp only [isAsciiLetter, Bool.or_eq_true, Bool.and_eq_true, decide_eq_true_eq] at h
  simp only [isJsWhitespace, Bool.or_eq_true, Bool.and_eq_true, decide_eq_true_eq]
  simp only [Bool.or_eq_false_iff, Bool.and_eq_false_iff, decide_eq_false_iff_not]
  omega

theorem dropTrailWS_eq_nil {y : List Char} (h : dropTrailWS y = []) :
    ∀ c ∈ y, isJsWhitespace c = true := by
  intro c hc
  have hrev := congrArg List.reverse h
  rw [dropTrailWS, List.reverse_reverse] at hrev
  have hall := List.dropWhile_eq_nil_iff.mp hrev
  exact hall c (List.mem_reverse.mpr hc)

theorem dropTrailWS_head {a b : Char} {t r : List Char}
    (h : dropTrailWS (a :: t) = b :: r) : b = a := by
  have hpre := dropTrailWS_isPre (a :: t)
  rw [h] at hpre
  rcases hpre with ⟨rest, hrest⟩
  rw [List.cons_append] at hrest
  exact (List.cons.injEq _ _ _ _ ▸ hrest).1

/-- When the input trims to nothing or to a bare `\x7b\x7d`, the tail of the
cleaner (`\n`-letter strip, trailing-brace strip, trims) produces the empty
string. -/
theorem cleanSpecial (post : List Char)
    (h : jsTrimL post = [] ∨ jsTrimL post = "{}".data) :
    jsTrimL (stripTrailBraces (jsTrimL (stripLeadNL post))) = [] := by
  have hA : jsTrimL (stripLeadNL post) = jsTrimL post := by
    rcases post with _ | ⟨a, rest⟩
    · rfl
    by_cases ha : a = '\n'
    · subst ha
      rcases rest with _ | ⟨c, l2⟩
      · rw [show stripLeadNL ['\n'] = [] from rfl]
        decide
      · rw [stripLeadNL.eq_def]
        dsimp only
        rw [if_pos rfl]
        by_cases hc : isAsciiLetter c
        · exfalso
          rw [jsTrimL_cons_ws '\n' (c :: l2) (by decide)] at h
          have hcws : isJsWhitespace c = false := asciiLetter_not_ws hc
          rw [jsTrimL, List.dropWhile_cons, hcws] at h
          simp only [Bool.false_eq_true, if_false] at h
          rcases h with h | h
          · have := dropTrailWS_eq_nil h c (by simp)
            rw [hcws] at this
            simp at this
          · rcases hbraces : dropTrailWS (c :: l2) with _ | ⟨b, r⟩
            · rw [hbraces] at h
              simp at h
            · rw [hbraces] at h
              have hb := dropTrailWS_head hbraces
              have : b = '{' := by
                have := (List.cons.injEq b r '{' ['}']).mp h
                exact this.1
              rw [this] at hb
              rw [← hb] at hc
              simp [isAsciiLetter] at hc
        · rw [if_neg hc]
          rw [jsTrimL_cons_ws '\n' (c :: l2) (by decide)]
    · rw [stripLeadNL.eq_def]
      dsimp only
      rw [if_neg ha]
  rw [hA]
  rcases h with h | h
  · rw [h]
    decide
  · rw [h]
    decide

instance (pat : List Char) : Decidable (borderFree pat) :=
  inferInstanceAs (Decidable (∀ k, k < pat.length → 0 < k →
    pat.drop k ≠ pat.take (pat.length - k)))

theorem endUser_borderFree : borderFree ('<' :: "|END_USER|>".data) := by decide

theorem not_endUser_infix_cons_of (c : Char) (post : List Char)
    (hc : c ≠ '<') (hpost : ¬(('<' :: "|END_USER|>".data) <:+: post)) :
    ¬(('<' :: "|END_USER|>".data) <:+: (c :: post)) := by
  intro h
  rcases List.infix_cons_iff.mp h with h2 | h2
  · rcases List.cons_prefix_cons.mp h2 with ⟨heq, _⟩
    exact hc heq.symm
  · exact hpost h2

/-- The main-path behaviour on a decomposed input: everything through the
last `<|END_USER|>` marker is removed, so cleaning the whole input equals
cleaning the part after the marker. -/
theorem cleanResponseText_append_endUser (pre post : List Char)
    (hpost : ¬(('<' :: "|END_USER|>".data) <:+: post))
    (hb1 : jsTrimL (pre ++ ('<' :: "|END_USER|>".data) ++ post) ≠ "{}".data)
    (hb2 : jsTrimL (pre ++ ('<' :: "|END_USER|>".data) ++ post) ≠ [])
    (hb3 : scaffoldTest (pre ++ ('<' :: "|END_USER|>".data) ++ post) = false) :
    cleanResponseText ⟨pre ++ ('<' :: "|END_USER|>".data) ++ post⟩ =
      cleanResponseText ⟨post⟩ := by
  have hdata1 : (⟨pre ++ ('<' :: "|END_USER|>".data) ++ post⟩ : String).data =
      pre ++ ('<' :: "|END_USER|>".data) ++ post := rfl
  have hdata2 : (⟨post⟩ : String).data = post := rfl
  have hlhs : cleanResponseText ⟨pre ++ ('<' :: "|END_USER|>".data) ++ post⟩ =
      ⟨jsTrimL (stripTrailBraces (jsTrimL (stripLeadNL post)))⟩ := by
    rw [cleanResponseText, hdata1]
    rw [if_neg (by push_neg; exact ⟨hb1, hb2⟩)]
    rw [if_neg (by
      intro hcontra
      rw [hb3] at hcontra
      exact absurd hcontra (by decide))]
    rw [afterLastMarker_append '<' "|END_USER|>".data endUser_borderFree pre post hpost]
  rw [hlhs]
  by_cases hspec : jsTrimL post = [] ∨ jsTrimL post = "{}".data
  · rw [cleanSpecial post hspec]
    rw [cleanResponseText, hdata2]
    rw [if_pos (by rcases hspec with h | h <;> [right; left] <;> exact h)]
  · push_neg at hspec
    have hscafpost : scaffoldTest post = false := by
      by_contra hcontra
      exact hpost (scaffoldTest_infixOf post (by simpa using hcontra))
    rw [cleanResponseText, hdata2]
    rw [if_neg (by push_neg; exact ⟨hspec.2, hspec.1⟩)]
    rw [if_neg (by simp [hscafpost])]
    rw [afterLastMarker_eq_self _ _ _ hpost]

/-- The leading `\n<letter>` artifact strip: after the marker cut, a
newline followed by one ASCII letter is removed as a pair, so cleaning the
artifact-bearing text equals cleaning the text without it (the space stands
for removed leading whitespace). -/
theorem cleanResponseText_newline_letter (c : Char) (post : List Char)
    (hc : isAsciiLetter c = true)
    (hnoEU : ¬(('<' :: "|END_USER|>".data) <:+: ('\n' :: c :: post))) :
    cleanResponseText ⟨'\n' :: c :: post⟩ = cleanResponseText ⟨' ' :: post⟩ := by
  have hcpost : ¬(('<' :: "|END_USER|>".data) <:+: (c :: post)) := by
    intro h
    exact hnoEU (List.infix_cons h)
  have hpost : ¬(('<' :: "|END_USER|>".data) <:+: post) := by
    intro h
    exact hcpost (List.infix_cons h)
  have hspacepost : ¬(('<' :: "|END_USER|>".data) <:+: (' ' :: post)) :=
    not_endUser_infix_cons_of ' ' post (by decide) hpost
  have hcws : isJsWhitespace c = false := asciiLetter_not_ws hc
  have htrimL : jsTrimL ('\n' :: c :: post) = dropTrailWS (c :: post) := by
    rw [jsTrimL_cons_ws '\n' (c :: post) (by decide), jsTrimL, List.dropWhile_cons, hcws]
    simp
  have hdata1 : (⟨'\n' :: c :: post⟩ : String).data = '\n' :: c :: post := rfl
  have hdata2 : (⟨' ' :: post⟩ : String).data = ' ' :: post := rfl
  have hlhs : cleanResponseText ⟨'\n' :: c :: post⟩ =
      ⟨jsTrimL (stripTrailBraces (jsTrimL post))⟩ := by
    rw [cleanResponseText, hdata1]
    rw [if_neg (by
      rw [htrimL]
      push_neg
      constructor
      · intro hcontra
        have hb := dropTrailWS_head hcontra
        rw [← hb] at hc
        exact absurd hc (by decide)
      · intro hcontra
        have := dropTrailWS_eq_nil hcontra c (by simp)
        rw [hcws] at this
        simp at this)]
    rw [if_neg (by
      by_contra hcontra
      exact hnoEU (scaffoldTest_infixOf _ (by simpa using hcontra)))]
    rw [afterLastMarker_eq_self _ _ _ hnoEU]
    rw [stripLeadNL.eq_def]
    dsimp only
    rw [if_pos rfl, if_pos hc]
  rw [hlhs]
  by_cases hspec : jsTrimL post = [] ∨ jsTrimL post = "{}".data
  · have hres : jsTrimL (stripTrailBraces (jsTrimL post)) = [] := by
      rcases hspec with h | h
      · rw [h]; decide
      · rw [h]; decide
    rw [hres]
    rw [cleanResponseText, hdata2]
    rw [if_pos (by
      rw [jsTrimL_cons_ws ' ' post (by decide)]
      rcases hspec with h | h <;> [right; left] <;> exact h)]
  · push_neg at hspec
    have hscafpost : scaffoldTest (' ' :: post) = false := by
      by_contra hcontra
      exact hspacepost (scaffoldTest_infixOf _ (by simpa using hcontra))
    rw [cleanResponseText, hdata2]
    rw [if_neg (by
      rw [jsTrimL_cons_ws ' ' post (by decide)]
      push_neg
      exact ⟨hspec.2, hspec.1⟩)]
    rw [if_neg (by simp [hscafpost])]
    rw [afterLastMarker_eq_self _ _ _ hspacepost]
    rw [stripLeadNL.eq_def]
    dsimp only
    rw [if_neg (by decide)]
    rw [jsTrimL_cons_ws ' ' post (by decide)]

/-! ## Evaluation lemmas for the well-founded definitions

`varintEnc` and `parseHexResponse` recurse on a measure, so concrete
instances are evaluated through their unfolding equations. -/

theorem varintEnc_small {n : Nat} (h : n < 128) : varintEnc n = [n] := by
  rw [varintEnc]; rw [dif_pos h]

/-- Byte length of the demonstration request used by the concrete
instantiations below. -/
theorem encodeDemo_length_lt :
    (encodeChatMessage (convertToCursorFormat [⟨"user", "Hi"⟩] "gpt-4o"
      (fun _ => "id") "r" "c")).length < 1099511627776 := by
  have h1 : (utf8Encode "Hi").length = 2 := by decide
  have h2 : (utf8Encode "id").length = 2 := by decide
  have h3 : (utf8Encode "gpt-4o").length = 6 := by decide
  have h4 : (utf8Encode "").length = 0 := by decide
  have h5 : (utf8Encode "r").length = 1 := by decide
  have h6 : (utf8Encode "c").length = 1 := by decide
  have h7 : (utf8Encode "Always respond in the user's preferred language").length = 47 := by
    decide
  have h8 : (utf8Encode "/cursor-sdk-project").length = 19 := by decide
  simp [encodeChatMessage, convertToCursorFormat, convertMessages, encodeUserMessage,
    encodeInstructions, encodeModel, optField, wString, wBytes, wUint32,
    h1, h2, h3, h4, h5, h6, h7, h8, varintEnc_small]

theorem parseHexResponse_nil : parseHexResponse [] = [] := by
  rw [parseHexResponse.eq_def]
  rw [dif_pos (by decide)]

theorem parseHexResponse_short (l : List Nat) (h5 : l.length < 5) :
    parseHexResponse l = [] := by
  rw [parseHexResponse.eq_def]
  rw [dif_pos h5]

theorem parseHexResponse_overrun (l : List Nat) (h5 : ¬ l.length < 5)
    (hlen : (l.drop 5).length < beVal (l.take 5)) :
    parseHexResponse l = [] := by
  rw [parseHexResponse.eq_def]
  rw [dif_neg h5]
  dsimp only
  rw [dif_pos hlen]

/-- One scanning step of `parseHexResponse` on a non-empty decoded message,
with the frame boundaries and the decode result supplied as equations. -/
theorem parseHexResponse_step_msg (l msgBytes tail : List Nat) (s : String)
    (h5 : ¬ l.length < 5) (hlen : ¬ (l.drop 5).length < beVal (l.take 5))
    (hmsg : (l.drop 5).take (beVal (l.take 5)) = msgBytes)
    (htail : (l.drop 5).drop (beVal (l.take 5)) = tail)
    (hdec : decodeResMessage msgBytes = some (some s)) (hs : s ≠ "") :
    parseHexResponse l = s :: parseHexResponse tail := by
  rw [parseHexResponse.eq_def]
  rw [dif_neg h5]
  dsimp only
  rw [dif_neg hlen]
  rw [hmsg, htail, hdec]
  dsimp only
  rw [if_neg hs]

/-- A scanning step whose decoded message carries an empty `msg` string
contributes nothing (the JavaScript truthiness test skips it). -/
theorem parseHexResponse_step_empty (l msgBytes tail : List Nat)
    (h5 : ¬ l.length < 5) (hlen : ¬ (l.drop 5).length < beVal (l.take 5))
    (hmsg : (l.drop 5).take (beVal (l.take 5)) = msgBytes)
    (htail : (l.drop 5).drop (beVal (l.take 5)) = tail)
    (hdec : decodeResMessage msgBytes = some (some "")) :
    parseHexResponse l = parseHexResponse tail := by
  rw [parseHexResponse.eq_def]
  rw [dif_neg h5]
  dsimp only
  rw [dif_neg hlen]
  rw [hmsg, htail, hdec]
  dsimp only
  rw [if_pos rfl]

/-- A scanning step whose message fails to decode (or decodes without a
`msg` field) is skipped and scanning continues at the next prefix. -/
theorem parseHexResponse_step_skip (l msgBytes tail : List Nat)
    (h5 : ¬ l.length < 5) (hlen : ¬ (l.drop 5).length < beVal (l.take 5))
    (hmsg : (l.drop 5).take (beVal (l.take 5)) = msgBytes)
    (htail : (l.drop 5).drop (beVal (l.take 5)) = tail)
    (hdec : decodeResMessage msgBytes = none ∨ decodeResMessage msgBytes = some none) :
    parseHexResponse l = parseHexResponse tail := by
  rw [parseHexResponse.eq_def]
  rw [dif_neg h5]
  dsimp only
  rw [dif_neg hlen]
  rw [hmsg, htail]
  rcases hdec with h | h <;> rw [h]

/-! ## Case analyses for validation, chunk processing and the pull loop -/

/-- `validateParams`' per-message loop rejects a list containing any
invalid message. -/
theorem validateEach_err (msgs : List ChatMsg) (m : ChatMsg) (hm : m ∈ msgs)
    (hbad : m.role = "" ∨ m.content = "" ∨
      ¬(m.role = "system" ∨ m.role = "user" ∨ m.role = "assistant")) :
    ∃ e, validateEach msgs = Except.error (ApiFailure.badRequest e) := by
  induction msgs with
  | nil => cases hm
  | cons a rest ih =>
      rw [validateEach]
      by_cases h1 : a.role = "" ∨ a.content = ""
      · rw [if_pos h1]; exact ⟨_, rfl⟩
      · rw [if_neg h1]
        by_cases h2 : ¬(a.role = "system" ∨ a.role = "user" ∨ a.role = "assistant")
        · rw [if_pos h2]; exact ⟨_, rfl⟩
        · rw [if_neg h2]
          rcases List.mem_cons.mp hm with rfl | hmem
          · push_neg at h1
            rcases hbad with hb | hb | hb
            · exact absurd hb h1.1
            · exact absurd hb h1.2
            · exact absurd (not_not.mp h2) hb
          · exact ih hmem

/-- The headered-text handler either returns cleaned text or raises with
the `API Error: ` prefix. -/
theorem headeredTextStep_cases (text : String) :
    (∃ s, headeredTextStep text = Except.ok s) ∨
    (∃ e, headeredTextStep text = Except.error ("API Error: " ++ e)) := by
  rw [headeredTextStep]
  split
  · split
    · split
      · split
        · split
          · right; exact ⟨_, rfl⟩
          · left; exact ⟨_, rfl⟩
        · left; exact ⟨_, rfl⟩
      · left; exact ⟨_, rfl⟩
    · left; exact ⟨_, rfl⟩
  · left; exact ⟨_, rfl⟩

/-- The non-headered tail of `processChunk` never raises. -/
theorem processChunkTail_ok (gz : List Nat → Option String) (chunk : List Nat) :
    ∃ s, processChunkTail gz chunk = Except.ok s := by
  rw [processChunkTail]
  split
  · split
    · exact ⟨_, rfl⟩
    · exact ⟨_, rfl⟩
  · dsimp only
    split
    · exact ⟨_, rfl⟩
    · exact ⟨_, rfl⟩

/-- A pull iteration in a not-yet-done state enqueues nothing, exactly the
final chunk (setting `done`), or exactly one non-empty content chunk. -/
theorem pullStep_shape (gz : List Nat → Option String) (st : StreamSt) (ev : ReadEvent)
    (h : st.done = false) :
    ((pullStep gz st ev).2.1 = [] ∧ (pullStep gz st ev).1.done = false) ∨
    ((pullStep gz st ev).2.1 = [finalChunk] ∧ (pullStep gz st ev).1.done = true) ∨
    (∃ t, t ≠ "" ∧ (pullStep gz st ev).2.1 = [contentChunk t] ∧
      (pullStep gz st ev).1.done = false) := by
  rw [pullStep.eq_def]
  rw [if_neg (by simp [h])]
  match ev with
  | ReadEvent.readEnd => right; left; exact ⟨rfl, rfl⟩
  | ReadEvent.readNone idle =>
      dsimp only
      split
      · right; left; exact ⟨rfl, rfl⟩
      · left; exact ⟨rfl, h⟩
  | ReadEvent.readFrame v =>
      dsimp only
      split
      · left; exact ⟨rfl, h⟩
      · split
        · right; left; exact ⟨rfl, rfl⟩
        · split
          · split
            · right; left; exact ⟨rfl, rfl⟩
            · left; exact ⟨rfl, h⟩
          · right; right
            rename_i htext
            exact ⟨_, htext, rfl, h⟩

/-- A pull on a done stream only closes it: no state change, no chunk. -/
theorem pullStep_done (gz : List Nat → Option String) (st : StreamSt) (ev : ReadEvent)
    (h : st.done = true) : pullStep gz st ev = (st, [], PullSignal.closed) := by
  rw [pullStep.eq_def]
  rw [if_pos h]

/-- Once `done` is set, the rest of the run enqueues nothing. -/
theorem runPull_done (gz : List Nat → Option String) (evs : List ReadEvent) :
    ∀ st : StreamSt, st.done = true → runPull gz st evs = ([], st) := by
  induction evs with
  | nil => intro st h; rfl
  | cons e evs ih =>
      intro st h
      rw [runPull]
      rw [pullStep_done gz st e h]
      dsimp only
      rw [ih st h]
      rfl

/-- Shape of a whole run from a not-done state: the enqueued chunks are a
sequence of non-empty content chunks, optionally closed by one final
chunk. -/
theorem runPull_shape (gz : List Nat → Option String) (evs : List ReadEvent) :
    ∀ st : StreamSt, st.done = false →
    ∃ ts : List String, (∀ t ∈ ts, t ≠ "") ∧
      ((runPull gz st evs).1 = ts.map contentChunk ∨
       (runPull gz st evs).1 = ts.map contentChunk ++ [finalChunk]) := by
  induction evs with
  | nil => intro st h; exact ⟨[], by simp, Or.inl rfl⟩
  | cons e evs ih =>
      intro st h
      rw [runPull]
      dsimp only
      rcases pullStep_shape gz st e h with ⟨hemit, hdone⟩ | ⟨hemit, hdone⟩ |
        ⟨t, ht, hemit, hdone⟩
      · rcases ih (pullStep gz st e).1 hdone with ⟨ts, hts, hor⟩
        refine ⟨ts, hts, ?_⟩
        rw [hemit]
        simpa using hor
      · have hrest := runPull_done gz evs (pullStep gz st e).1 hdone
        refine ⟨[], by simp, Or.inr ?_⟩
        rw [hemit, hrest]
        simp
      · rcases ih (pullStep gz st e).1 hdone with ⟨ts, hts, hor⟩
        refine ⟨t :: ts, ?_, ?_⟩
        · intro x hx
          rcases List.mem_cons.mp hx with rfl | hx
          · exact ht
          · exact hts x hx
        · rw [hemit]
          rcases hor with hl | hr
          · left; rw [hl]; rfl
          · right; rw [hr]; rfl

/-! ## The claims -/

/-- C1: Round-trip of the request encoding (corrected).  For every valid
message list and model name, stripping the 5-byte length prefix from the
Request Framer's output and decoding the payload with the mirror decoder
yields the same message contents, the same wire roles and the same model
name — but, contrary to the claim's final clause, each encoded message is
preceded by an extra zero-value placeholder entry: the decoded message list
interleaves an empty `UserMessage` before every real one (the encoder's
`fork().ldelim()` pair emits an empty length-delimited field-2 entry). -/
theorem C1_request_roundtrip (messages : List ChatMsg) (modelName : String)
    (ids : Nat → String) (reqId convId : String)
    (hc : ∀ m ∈ messages, (utf8Encode m.content).length < 268435456)
    (hids : ∀ j, (utf8Encode (ids j)).length < 268435456)
    (hm : (utf8Encode modelName).length < 268435456)
    (hreq : (utf8Encode reqId).length < 4294967296)
    (hconv : (utf8Encode convId).length < 4294967296)
    (hlen : (encodeChatMessage
      (convertToCursorFormat messages modelName ids reqId convId)).length < 1099511627776) :
    ∃ d : ChatMessageReq,
      decodeChatMessage ((createHexMessage messages modelName ids reqId convId).drop 5) =
        some d ∧
      d.messages = (convertMessages messages 0 ids).flatMap
        (fun m => [⟨none, none, none⟩, m]) ∧
      (convertMessages messages 0 ids).map (·.content) =
        messages.map (fun m => some m.content) ∧
      (convertMessages messages 0 ids).map (·.role) =
        messages.map (fun m => some (if m.role = "user" then 1 else 2)) ∧
      d.model = some ⟨some modelName, some ""⟩ := by
  obtain ⟨head, hsplit, hl5, -⟩ :=
    createHexMessage_eq messages modelName ids reqId convId hlen
  refine ⟨⟨(convertMessages messages 0 ids).flatMap (fun m => [⟨none, none, none⟩, m]),
      some ⟨some "Always respond in the user's preferred language"⟩,
      some "/cursor-sdk-project", some ⟨some modelName, some ""⟩,
      some reqId, some "", some convId⟩, ?_,
    rfl, convertMessages_content messages ids 0, convertMessages_role messages ids 0, rfl⟩
  rw [hsplit, ← hl5, List.drop_left]
  exact decodeChatMessage_encode messages modelName ids reqId convId hc hids hm hreq hconv

/-- Concrete instantiation of C1's round-trip on a one-message request. -/
theorem C1_request_roundtrip_witness :
    ∃ d : ChatMessageReq,
      decodeChatMessage ((createHexMessage [⟨"user", "Hi"⟩] "gpt-4o"
        (fun _ => "id") "r" "c").drop 5) = some d ∧
      d.messages = (convertMessages [⟨"user", "Hi"⟩] 0 (fun _ => "id")).flatMap
        (fun m => [⟨none, none, none⟩, m]) ∧
      (convertMessages [⟨"user", "Hi"⟩] 0 (fun _ => "id")).map (·.content) =
        [(⟨"user", "Hi"⟩ : ChatMsg)].map (fun m => some m.content) ∧
      (convertMessages [⟨"user", "Hi"⟩] 0 (fun _ => "id")).map (·.role) =
        [(⟨"user", "Hi"⟩ : ChatMsg)].map (fun m => some (if m.role = "user" then 1 else 2)) ∧
      d.model = some ⟨some "gpt-4o", some ""⟩ :=
  C1_request_roundtrip [⟨"user", "Hi"⟩] "gpt-4o" (fun _ => "id") "r" "c"
    (by intro m hm; rw [List.mem_singleton] at hm; subst hm; decide)
    (fun _ => (by decide : (utf8Encode "id").length < 268435456))
    (by decide) (by decide) (by decide) encodeDemo_length_lt

/-- The decoded message list of a one-message request holds two entries —
a zero-value placeholder and the real message — refuting the claim's
`no extra zero-value placeholder fields` clause. -/
theorem C1_placeholder_counterexample :
    ∃ d : ChatMessageReq,
      decodeChatMessage ((createHexMessage [⟨"user", "Hi"⟩] "gpt-4o"
        (fun _ => "id") "r" "c").drop 5) = some d ∧
      d.messages.map (·.content) = [none, some "Hi"] ∧
      d.messages.map (·.content) ≠ [some "Hi"] := by
  obtain ⟨head, hsplit, hl5, -⟩ :=
    createHexMessage_eq [⟨"user", "Hi"⟩] "gpt-4o" (fun _ => "id") "r" "c" encodeDemo_length_lt
  refine ⟨⟨(convertMessages [⟨"user", "Hi"⟩] 0 (fun _ => "id")).flatMap
      (fun m => [⟨none, none, none⟩, m]),
      some ⟨some "Always respond in the user's preferred language"⟩,
      some "/cursor-sdk-project", some ⟨some "gpt-4o", some ""⟩,
      some "r", some "", some "c"⟩, ?_, by decide, by decide⟩
  rw [hsplit, ← hl5, List.drop_left]
  exact decodeChatMessage_encode [⟨"user", "Hi"⟩] "gpt-4o" (fun _ => "id") "r" "c"
    (by intro m hm; rw [List.mem_singleton] at hm; subst hm; decide)
    (fun _ => (by decide : (utf8Encode "id").length < 268435456))
    (by decide) (by decide) (by decide)

/-- C2: For every input with an empty messages list, a message with empty
role or content, a role outside system/user/assistant, or an empty model
string, request building stops with a client-side bad-request error: the
result carries no `SentRequest`, so no encoding output exists and no
transport call is issued. -/
theorem C2_validation_rejects (messages : List ChatMsg) (model : String)
    (msgIds : Nat → String) (reqId convId : String)
    (hbad : messages = [] ∨
      (∃ m ∈ messages, m.role = "" ∨ m.content = "" ∨
        ¬(m.role = "system" ∨ m.role = "user" ∨ m.role = "assistant")) ∨
      model = "") :
    ∃ emsg, createRequest messages model msgIds reqId convId =
      Except.error (ApiFailure.badRequest emsg) := by
  have hv : ∃ e, validateParams messages model =
      Except.error (ApiFailure.badRequest e) := by
    rw [validateParams]
    by_cases hnil : messages = []
    · rw [if_pos hnil]; exact ⟨_, rfl⟩
    · rw [if_neg hnil]
      by_cases hmod : model = ""
      · rw [if_pos hmod]; exact ⟨_, rfl⟩
      · rw [if_neg hmod]
        rcases hbad with h | ⟨m, hm, hb⟩ | h
        · exact absurd h hnil
        · exact validateEach_err messages m hm hb
        · exact absurd h hmod
  rcases hv with ⟨e, he⟩
  refine ⟨e, ?_⟩
  rw [createRequest, he]

/-- Concrete instantiations of C2: the empty list and an empty-content
message are both rejected. -/
theorem C2_validation_rejects_witness :
    (∃ emsg, createRequest [] "gpt-4o" (fun _ => "id") "r" "c" =
      Except.error (ApiFailure.badRequest emsg)) ∧
    (∃ emsg, createRequest [⟨"user", ""⟩] "gpt-4o" (fun _ => "id") "r" "c" =
      Except.error (ApiFailure.badRequest emsg)) :=
  ⟨C2_validation_rejects [] "gpt-4o" (fun _ => "id") "r" "c" (Or.inl rfl),
   C2_validation_rejects [⟨"user", ""⟩] "gpt-4o" (fun _ => "id") "r" "c"
     (Or.inr (Or.inl ⟨⟨"user", ""⟩, by simp, Or.inr (Or.inl rfl)⟩))⟩

/-- The two-byte payload `7b 7d` decodes to the literal `\x7b\x7d`. -/
theorem utf8Decode_braces : utf8Decode [123, 125] = "{}" := by
  rw [show ([123, 125] : List Nat) = utf8Encode "{}" from rfl, utf8Decode_encode]

/-- A `02`-headed frame carrying the `\x7b\x7d` payload processes to the
empty string (the cleaner drops a bare `\x7b\x7d`). -/
theorem processChunk_braces02 (gz : List Nat → Option String) :
    processChunk gz [2, 0, 0, 0, 2, 123, 125] = Except.ok "" := by
  rw [show processChunk gz [2, 0, 0, 0, 2, 123, 125] =
    headeredTextStep (utf8Decode [123, 125]) from rfl, utf8Decode_braces]
  rfl

/-- A `01`-headed frame carrying the `\x7b\x7d` payload also processes to
the empty string. -/
theorem processChunk_braces01 (gz : List Nat → Option String) :
    processChunk gz [1, 0, 0, 0, 2, 123, 125] = Except.ok "" := by
  rw [show processChunk gz [1, 0, 0, 0, 2, 123, 125] =
    headeredTextStep (utf8Decode [123, 125]) from rfl, utf8Decode_braces]
  rfl

/-- C3: Explicit end-of-stream detection (corrected).  Every frame whose
first three bytes are `02 00 00` and whose payload past the 5-byte header
trims to the literal `\x7b\x7d` makes the assembler emit exactly one
content-less chunk with `finish_reason: "stop"`, enter the terminal `done`
state and close the stream; from a done state every subsequent pull only
reports the stream closed and never enqueues a chunk.  Correcting the
claim's scope over the full headered pattern: only `02`-headed frames are
the explicit end signal — a frame processed to the empty string that does
not match the `02 00 00` end check (such as a `01`-headed `\x7b\x7d`
frame) enqueues nothing, keeps the stream open and merely increments the
empty-chunk counter. -/
theorem C3_end_of_stream (gz : List Nat → Option String) :
    (∀ (st : StreamSt) (v : List Nat) (text : String), st.done = false →
      processChunk gz v = Except.ok text →
      5 ≤ v.length → v.take 3 = [2, 0, 0] →
      jsTrim (utf8Decode (v.drop 5)) = "{}" →
      pullStep gz st (ReadEvent.readFrame v) =
        ({ st with done := true }, [finalChunk], PullSignal.closed)) ∧
    (∀ st : StreamSt, st.done = true →
      ∀ ev, pullStep gz st ev = (st, [], PullSignal.closed)) ∧
    (∀ (st : StreamSt) (v : List Nat), st.done = false →
      processChunk gz v = Except.ok "" →
      ¬(5 ≤ v.length ∧ v.take 3 = [2, 0, 0] ∧
        jsTrim (utf8Decode (v.drop 5)) = "{}") →
      ¬(0 < st.chunkCount ∧ 2 ≤ st.emptyChunkCount + 1) →
      pullStep gz st (ReadEvent.readFrame v) =
        ({ st with emptyChunkCount := st.emptyChunkCount + 1 }, [],
          PullSignal.keepOpen)) := by
  refine ⟨?_, ?_, ?_⟩
  · intro st v text hdone hpc h5 h3 hjs
    rw [pullStep.eq_def]
    rw [if_neg (by simp [hdone])]
    dsimp only
    rw [hpc]
    dsimp only
    rw [if_pos ⟨h5, h3, hjs⟩]
  · intro st h ev
    exact pullStep_done gz st ev h
  · intro st v hdone hpc hmark hcnt
    rw [pullStep.eq_def]
    rw [if_neg (by simp [hdone])]
    dsimp only
    rw [hpc]
    dsimp only
    rw [if_neg hmark]
    rw [if_pos rfl]
    rw [if_neg hcnt]

/-- Concrete instantiation of C3: a `02`-headed `\x7b\x7d` frame stops the
stream from the initial state. -/
theorem C3_end_of_stream_witness :
    pullStep (fun _ => none) initialStreamState
      (ReadEvent.readFrame [2, 0, 0, 0, 2, 123, 125]) =
    ({ initialStreamState with done := true }, [finalChunk], PullSignal.closed) :=
  (C3_end_of_stream (fun _ => none)).1 initialStreamState [2, 0, 0, 0, 2, 123, 125] ""
    rfl (processChunk_braces02 _) (by decide) (by decide)
    (by rw [show (List.drop 5 [2, 0, 0, 0, 2, 123, 125] : List Nat) = [123, 125] from rfl,
          utf8Decode_braces]
        decide)

/-- A `01`-headed frame whose payload decodes to `\x7b\x7d` — a frame
matching the headered pattern — enqueues no chunk and leaves the stream
open, refuting the claim as stated over the full headered pattern. -/
theorem C3_header_counterexample :
    pullStep (fun _ => none) initialStreamState
      (ReadEvent.readFrame [1, 0, 0, 0, 2, 123, 125]) =
    ((⟨false, 0, 1⟩ : StreamSt), [], PullSignal.keepOpen) := by
  have hmark : ¬(5 ≤ ([1, 0, 0, 0, 2, 123, 125] : List Nat).length ∧
      List.take 3 ([1, 0, 0, 0, 2, 123, 125] : List Nat) = [2, 0, 0] ∧
      jsTrim (utf8Decode (List.drop 5 ([1, 0, 0, 0, 2, 123, 125] : List Nat))) = "{}") :=
    fun h => absurd h.2.1 (by decide)
  rw [pullStep.eq_def]
  rw [if_neg (by decide)]
  dsimp only
  rw [processChunk_braces01]
  dsimp only
  rw [if_neg hmark]
  rw [if_pos rfl]
  rw [if_neg (by decide)]
  rfl

/-- Evaluation form of the cleaner on marker-free text (the
`afterLastMarker` cut is the identity there). -/
theorem cleanResponseText_no_marker (s : String)
    (hnoEU : ¬(('<' :: "|END_USER|>".data) <:+: s.data)) :
    cleanResponseText s =
      if jsTrimL s.data = "{}".data ∨ jsTrimL s.data = [] then ""
      else if scaffoldTest s.data then ""
      else ⟨jsTrimL (stripTrailBraces (jsTrimL (stripLeadNL s.data)))⟩ := by
  rw [cleanResponseText]
  split
  · rfl
  · split
    · rfl
    · rw [afterLastMarker_eq_self _ _ _ hnoEU]

/-- C4: Error detection in headered text (corrected).  The handler raises
`API Error: <serialized error>` when the decoded text contains the literal
substring `\x7b"error"` and the first-brace span parses to an object with a
truthy `error` member; a malformed (unparseable) matched span is not an
error and falls through to plain cleaning — and, correcting the claim, so
does every text whose embedded error object lacks the exact literal
`\x7b"error"`, even when it is parseable and carries an `error` key. -/
theorem C4_error_detection (text : String) :
    (∀ span v e, occursIn errLit text.data = true →
      firstBraceSpan text.data = some span →
      jsonParse span = some v → objGet? v "error" = some e → jsTruthy e = true →
      headeredTextStep text = Except.error ("API Error: " ++ jsonStringify e)) ∧
    (∀ span, occursIn errLit text.data = true → firstBraceSpan text.data = some span →
      jsonParse span = none →
      headeredTextStep text = Except.ok (cleanResponseText text)) ∧
    (occursIn errLit text.data = false →
      headeredTextStep text = Except.ok (cleanResponseText text)) := by
  refine ⟨?_, ?_, ?_⟩
  · intro span v e hocc hspan hparse herr htruthy
    rw [headeredTextStep]
    rw [if_pos hocc, hspan]
    dsimp only
    rw [hparse]
    dsimp only
    rw [herr]
    dsimp only
    rw [if_pos htruthy]
  · intro span hocc hspan hparse
    rw [headeredTextStep]
    rw [if_pos hocc, hspan]
    dsimp only
    rw [hparse]
  · intro hocc
    rw [headeredTextStep]
    rw [if_neg (by simp [hocc])]

/-- Concrete instantiation of C4: a frame embedding `\x7b"error":"x"\x7d`
raises the prefixed protocol error. -/
theorem C4_error_detection_witness :
    headeredTextStep "\x7b\"error\":\"x\"\x7d" =
      Except.error ("API Error: " ++ jsonStringify (Json.str "x")) :=
  (C4_error_detection "\x7b\"error\":\"x\"\x7d").1 "\x7b\"error\":\"x\"\x7d".data
    (Json.obj [("error", Json.str "x")]) (Json.str "x")
    (by decide) rfl rfl rfl (by decide)

/-- A headered frame whose payload parses to an object with an `error` key
but lacks the exact `\x7b"error"` literal (a space follows the brace) is
not raised: it falls through to cleaning, refuting the claim's `contains a
parseable embedded JSON object with an error key` condition. -/
theorem C4_error_literal_counterexample :
    (firstBraceSpan "\x7b \"error\": \"x\" \x7d".data).bind
        (fun span => (jsonParse span).bind (fun v => objGet? v "error")) =
      some (Json.str "x") ∧
    processChunk (fun _ => none)
        ([2, 0, 0, 0, 0] ++ utf8Encode "\x7b \"error\": \"x\" \x7d") =
      Except.ok "\x7b \"error\": \"x\" \x7d" := by
  have hT : utf8Decode (utf8Encode "\x7b \"error\": \"x\" \x7d") =
      "\x7b \"error\": \"x\" \x7d" := utf8Decode_encode _
  have hclean : cleanResponseText "\x7b \"error\": \"x\" \x7d" =
      "\x7b \"error\": \"x\" \x7d" := by
    rw [cleanResponseText_no_marker _ (by decide)]
    decide
  refine ⟨rfl, ?_⟩
  rw [show processChunk (fun _ => none)
      ([2, 0, 0, 0, 0] ++ utf8Encode "\x7b \"error\": \"x\" \x7d") =
    headeredTextStep (utf8Decode (utf8Encode "\x7b \"error\": \"x\" \x7d")) from rfl]
  rw [hT]
  rw [headeredTextStep]
  rw [if_neg (by decide)]
  rw [hclean]

/-- C5: `processChunk` is total except for protocol errors: on every chunk
it either returns a string or fails with a message prefixed `API Error: `;
and a gzip decompression failure on a headered frame yields the empty
string for that frame instead of raising. -/
theorem C5_process_chunk_total (gz : List Nat → Option String) (chunk : List Nat) :
    ((∃ s, processChunk gz chunk = Except.ok s) ∨
      (∃ e, processChunk gz chunk = Except.error ("API Error: " ++ e))) ∧
    (5 < chunk.length → (chunk.take 3 = [1, 0, 0] ∨ chunk.take 3 = [2, 0, 0]) →
      (chunk.drop 5).take 2 = gzipMagic → gz (chunk.drop 5) = none →
      processChunk gz chunk = Except.ok "") := by
  constructor
  · rw [processChunk]
    dsimp only
    repeat' split
    all_goals
      first
        | exact Or.inl ⟨_, rfl⟩
        | exact headeredTextStep_cases _
        | exact Or.inl (processChunkTail_ok gz chunk)
  · intro hlen hhdr hgzip hfail
    rw [processChunk]
    rw [if_pos hlen]
    have hhs : (if chunk.take 3 = [1, 0, 0] then 5
        else if chunk.take 3 = [2, 0, 0] then 5 else 0) = 5 := by
      rcases hhdr with h | h
      · rw [if_pos h]
      · have h1 : ¬(chunk.take 3 = [1, 0, 0]) := by
          rw [h]; decide
        rw [if_neg h1, if_pos h]
    rw [hhs]
    rw [if_pos hgzip, hfail]

/-- Concrete instantiation of C5's decompression-failure clause: a headered
frame with a gzip-magic payload whose decompression fails produces the
empty string. -/
theorem C5_process_chunk_total_witness :
    processChunk (fun _ => none) [2, 0, 0, 0, 0, 31, 139, 9] = Except.ok "" :=
  (C5_process_chunk_total (fun _ => none) [2, 0, 0, 0, 0, 31, 139, 9]).2
    (by decide) (Or.inr (by decide)) (by decide) rfl

/-- C6: Malformed-message robustness of `parseHexResponse` (corrected).  A
well-formed length-prefixed message followed by a corrupted one yields
exactly the first message's text, and scanning stops when fewer than 5
bytes remain or the declared length overruns the buffer — but, correcting
the claim's `all successfully decoded msg strings` clause, a successfully
decoded message whose `msg` string is empty is skipped by the JavaScript
truthiness test and never collected. -/
theorem C6_skip_malformed (m₁ m₂ : List Nat) (s : String)
    (hdec1 : decodeResMessage m₁ = some (some s)) (hs : s ≠ "")
    (hdec2 : decodeResMessage m₂ = none)
    (hm1 : m₁.length < 1099511627776) (hm2 : m₂.length < 1099511627776) :
    parseHexResponse (be5 m₁.length ++ m₁ ++ be5 m₂.length ++ m₂) = [s] ∧
    (∀ l : List Nat, l.length < 5 → parseHexResponse l = []) ∧
    (∀ l : List Nat, ¬ l.length < 5 → (l.drop 5).length < beVal (l.take 5) →
      parseHexResponse l = []) := by
  refine ⟨?_, parseHexResponse_short, parseHexResponse_overrun⟩
  have hb1 : (be5 m₁.length).length = 5 := be5_length _
  have hb2 : (be5 m₂.length).length = 5 := be5_length _
  have hassoc : be5 m₁.length ++ m₁ ++ be5 m₂.length ++ m₂ =
      be5 m₁.length ++ (m₁ ++ (be5 m₂.length ++ m₂)) := by
    simp [List.append_assoc]
  rw [hassoc]
  have htake1 : (be5 m₁.length ++ (m₁ ++ (be5 m₂.length ++ m₂))).take 5 = be5 m₁.length :=
    List.take_left' hb1
  have hdrop1 : (be5 m₁.length ++ (m₁ ++ (be5 m₂.length ++ m₂))).drop 5 =
      m₁ ++ (be5 m₂.length ++ m₂) :=
    List.drop_left' hb1
  rw [parseHexResponse_step_msg _ m₁ (be5 m₂.length ++ m₂) s
    (by rw [List.length_append, hb1]; omega)
    (by rw [hdrop1, htake1, beVal_be5 _ hm1, List.length_append]; omega)
    (by rw [hdrop1, htake1, beVal_be5 _ hm1]; exact List.take_left m₁ _)
    (by rw [hdrop1, htake1, beVal_be5 _ hm1]; exact List.drop_left m₁ _)
    hdec1 hs]
  rw [parseHexResponse_step_skip _ m₂ []
    (by rw [List.length_append, hb2]; omega)
    (by rw [List.drop_left' hb2, List.take_left' hb2, beVal_be5 _ hm2]; omega)
    (by rw [List.drop_left' hb2, List.take_left' hb2, beVal_be5 _ hm2]; exact List.take_length m₂)
    (by rw [List.drop_left' hb2, List.take_left' hb2, beVal_be5 _ hm2]; exact List.drop_length m₂)
    (Or.inl hdec2)]
  rw [parseHexResponse_nil]

/-- Concrete decode of a one-byte-string message, used by C6's
instantiations. -/
theorem decodeDemo_A : decodeResMessage [10, 1, 65] = some (some "A") := by
  have h : utf8Decode [65] = "A" := by
    rw [show ([65] : List Nat) = utf8Encode "A" from rfl, utf8Decode_encode]
  rw [show decodeResMessage [10, 1, 65] = some (some (utf8Decode [65])) from rfl, h]

/-- Concrete decode of an empty-string message, used by C6's
counterexample. -/
theorem decodeDemo_empty : decodeResMessage [10, 0] = some (some "") := by
  have h : utf8Decode [] = "" := by
    rw [show ([] : List Nat) = utf8Encode "" from rfl, utf8Decode_encode]
  rw [show decodeResMessage [10, 0] = some (some (utf8Decode [])) from rfl, h]

/-- Concrete instantiation of C6: a good frame followed by a corrupted one
yields exactly the first message's text. -/
theorem C6_skip_malformed_witness :
    parseHexResponse (be5 ([10, 1, 65] : List Nat).length ++ [10, 1, 65] ++
      be5 ([255] : List Nat).length ++ [255]) = ["A"] :=
  (C6_skip_malformed [10, 1, 65] [255] "A" decodeDemo_A (by decide) rfl
    (by decide) (by decide)).1

/-- A well-formed message that decodes with an empty `msg` string is
dropped by `parseHexResponse`, refuting the claim's `all successfully
decoded msg strings collected` clause. -/
theorem C6_empty_msg_counterexample :
    decodeResMessage [10, 0] = some (some "") ∧
    parseHexResponse [0, 0, 0, 0, 2, 10, 0] = [] := by
  refine ⟨decodeDemo_empty, ?_⟩
  rw [parseHexResponse_step_empty [0, 0, 0, 0, 2, 10, 0] [10, 0] []
    (by decide) (by decide) (by decide) (by decide) decodeDemo_empty]
  exact parseHexResponse_nil

/-- C7: The Request Framer's output is a 5-byte big-endian length header
followed by the encoded payload: its length is 5 plus the payload length,
its first 5 bytes read as a big-endian integer give the payload length, and
the rest is the payload itself. -/
theorem C7_length_header (messages : List ChatMsg) (modelName : String)
    (msgIds : Nat → String) (reqId convId : String)
    (hlen : (encodeChatMessage
      (convertToCursorFormat messages modelName msgIds reqId convId)).length
        < 1099511627776) :
    (createHexMessage messages modelName msgIds reqId convId).length =
      5 + (encodeChatMessage
        (convertToCursorFormat messages modelName msgIds reqId convId)).length ∧
    beVal ((createHexMessage messages modelName msgIds reqId convId).take 5) =
      (encodeChatMessage
        (convertToCursorFormat messages modelName msgIds reqId convId)).length ∧
    (createHexMessage messages modelName msgIds reqId convId).drop 5 =
      encodeChatMessage (convertToCursorFormat messages modelName msgIds reqId convId) := by
  obtain ⟨head, hsplit, hl5, hbe⟩ :=
    createHexMessage_eq messages modelName msgIds reqId convId hlen
  refine ⟨?_, ?_, ?_⟩
  · rw [hsplit, List.length_append, hl5]
  · rw [hsplit, ← hl5, List.take_left]
    exact hbe
  · rw [hsplit, ← hl5, List.drop_left]

/-- Concrete instantiation of C7 on a one-message request. -/
theorem C7_length_header_witness :
    (createHexMessage [⟨"user", "Hi"⟩] "gpt-4o" (fun _ => "id") "r" "c").length =
      5 + (encodeChatMessage (convertToCursorFormat [⟨"user", "Hi"⟩] "gpt-4o"
        (fun _ => "id") "r" "c")).length :=
  (C7_length_header [⟨"user", "Hi"⟩] "gpt-4o" (fun _ => "id") "r" "c"
    encodeDemo_length_lt).1

/-- C8: The streaming cleaner on marker-laden text: the fully scaffolded
sample collapses to the empty string, the `prefix<|END_USER|>\nCActual
content` sample yields `Actual content`; in general everything up to and
including the last `<|END_USER|>` marker is removed, and a remaining
leading newline followed by exactly one letter is stripped as a pair. -/
theorem C8_marker_cleaning :
    cleanResponseText "<|BEGIN_SYSTEM|>S<|END_SYSTEM|><|BEGIN_USER|>U<|END_USER|>" = "" ∧
    cleanResponseText "prefix<|END_USER|>\nCActual content" = "Actual content" ∧
    (∀ pre post : List Char, ¬(('<' :: "|END_USER|>".data) <:+: post) →
      jsTrimL (pre ++ ('<' :: "|END_USER|>".data) ++ post) ≠ "{}".data →
      jsTrimL (pre ++ ('<' :: "|END_USER|>".data) ++ post) ≠ [] →
      scaffoldTest (pre ++ ('<' :: "|END_USER|>".data) ++ post) = false →
      cleanResponseText ⟨pre ++ ('<' :: "|END_USER|>".data) ++ post⟩ =
        cleanResponseText ⟨post⟩) ∧
    (∀ c post, isAsciiLetter c = true →
      ¬(('<' :: "|END_USER|>".data) <:+: ('\n' :: c :: post)) →
      cleanResponseText ⟨'\n' :: c :: post⟩ = cleanResponseText ⟨' ' :: post⟩) := by
  refine ⟨?_, ?_, cleanResponseText_append_endUser, cleanResponseText_newline_letter⟩
  · rw [cleanResponseText]
    rw [if_neg (by decide), if_pos (by decide)]
  · rw [show ("prefix<|END_USER|>\nCActual content" : String) =
      ⟨"prefix".data ++ ('<' :: "|END_USER|>".data) ++
        ('\n' :: 'C' :: "Actual content".data)⟩ from by decide]
    rw [cleanResponseText_append_endUser "prefix".data
      ('\n' :: 'C' :: "Actual content".data) (by decide) (by decide) (by decide) (by decide)]
    rw [cleanResponseText_newline_letter 'C' "Actual content".data (by decide) (by decide)]
    rw [cleanResponseText_no_marker _ (by decide)]
    decide

/-- Concrete instantiation of C8's marker-cut clause. -/
theorem C8_marker_cleaning_witness :
    cleanResponseText ⟨"pre".data ++ ('<' :: "|END_USER|>".data) ++ "tail".data⟩ =
      cleanResponseText ⟨"tail".data⟩ :=
  C8_marker_cleaning.2.2.1 "pre".data "tail".data (by decide) (by decide)
    (by decide) (by decide)

/-- C9: Idempotence of the cleaner (corrected): `clean (clean x) = clean x`
whenever the cleaned output does not end in a trailing `\x7b\x7d` pair; the
trailing-brace strip removes only one such pair per pass, so idempotence
fails exactly on outputs still carrying one. -/
theorem C9_idempotent_unless_braces (x : String)
    (hnb : ¬("{}".data <:+ (cleanResponseText x).data)) :
    cleanResponseText (cleanResponseText x) = cleanResponseText x := by
  rcases cleanResponseText_output x with h | ⟨htrim, hnoEU⟩
  · rw [h]
    exact cleanResponseText_empty
  · exact cleanResponseText_fixed _ htrim hnoEU hnb

/-- Concrete instantiation of C9 on plain text. -/
theorem C9_idempotent_witness :
    cleanResponseText (cleanResponseText "Result") = cleanResponseText "Result" :=
  C9_idempotent_unless_braces "Result"
    (by rw [cleanResponseText_no_marker _ (by decide)]; decide)

/-- Cleaning `\x7b\x7d\x7b\x7d` yields `\x7b\x7d`, whose second cleaning
yields the empty string: the cleaner is not idempotent on all inputs. -/
theorem C9_counterexample :
    cleanResponseText (cleanResponseText "{}{}") ≠ cleanResponseText "{}{}" := by
  have h1 : cleanResponseText "{}{}" = "{}" := by
    rw [cleanResponseText_no_marker _ (by decide)]
    decide
  rw [h1]
  rw [show cleanResponseText "{}" = "" from by
    rw [cleanResponseText]; rw [if_pos (by decide)]]
  decide

/-- C10: Chunk-emission invariant of the assembler: over any run, the
enqueued chunks are a sequence of non-empty content deltas without a finish
reason, optionally terminated by a single final chunk (empty delta,
`finish_reason: "stop"`); the final chunk appears at most once and no
content chunk follows it. -/
theorem C10_chunk_invariant (gz : List Nat → Option String) (evs : List ReadEvent) :
    ∃ ts : List String, (∀ t ∈ ts, t ≠ "") ∧
      ((runPull gz initialStreamState evs).1 = ts.map contentChunk ∨
       (runPull gz initialStreamState evs).1 = ts.map contentChunk ++ [finalChunk]) :=
  runPull_shape gz evs initialStreamState rfl
